import Mathlib

/-!
Verification of the page-layout reconstruction engine of fek-extractor
(src/fek_extractor/io/pdf.py) against its natural-language specification.

The Python module is shallowly embedded below: geometry coordinates are
modelled as rationals (the source computes with IEEE doubles; every constant
of the source — 0.15, 0.14, 0.7, … — is taken at its exact decimal value),
strings as Lean strings (Python strings are sequences of code points, as is
`String.data`), and the regular expressions of the source as executable
matchers over character lists, faithful to CPython `re` semantics on the
pattern actually compiled (IGNORECASE folds both sides through lowercase
with the final-sigma equivalence; a word character for the word-boundary
assertion is an underscore, an alphanumeric ASCII character, a Greek
letter, or a Roman-numeral letterform — the character ranges that occur in
the documents this engine processes).

Batteries marks the core rational operations irreducible; they are restored
to their normal reducibility so that concrete runs of the embedded engine
can be evaluated by `decide`.
-/

set_option allowUnsafeReducibility true
attribute [semireducible] Rat.add Rat.mul Rat.inv Rat.sub Rat.div Rat.ofScientific

set_option maxHeartbeats 4000000
set_option maxRecDepth 4000

namespace Fek

/-! ### Character classes (CPython `re` and `str` semantics) -/

/-- Python whitespace (the set matched by the regex class backslash-s and
stripped by `str.strip`). -/
def pyIsSpace (c : Char) : Bool :=
  let n := c.toNat
  (0x09 ≤ n && n ≤ 0x0D) || (0x1C ≤ n && n ≤ 0x1F) || n = 0x20 || n = 0x85 ||
  n = 0xA0 || n = 0x1680 || (0x2000 ≤ n && n ≤ 0x200A) || n = 0x2028 ||
  n = 0x2029 || n = 0x202F || n = 0x205F || n = 0x3000

/-- ASCII decimal digit (the digits that occur in the processed documents). -/
def pyIsDigit (c : Char) : Bool :=
  0x30 ≤ c.toNat && c.toNat ≤ 0x39

/-- A regex word character, on the character repertoire of the documents this
engine processes: underscore, ASCII alphanumerics, Greek and Coptic letters
(U+0370–U+03FF except the punctuation and accent signs U+0375, U+037E,
U+0384, U+0385, U+0387), polytonic Greek (U+1F00–U+1FFF), and Roman-numeral
letterforms (U+2160–U+217F). -/
def pyIsWordChar (c : Char) : Bool :=
  let n := c.toNat
  n = 0x5F || (0x30 ≤ n && n ≤ 0x39) || (0x41 ≤ n && n ≤ 0x5A) ||
  (0x61 ≤ n && n ≤ 0x7A) ||
  ((0x370 ≤ n && n ≤ 0x3FF) && !(n = 0x375 || n = 0x37E || n = 0x384 ||
    n = 0x385 || n = 0x387)) ||
  (0x1F00 ≤ n && n ≤ 0x1FFF) || (0x2160 ≤ n && n ≤ 0x217F)

/-- Lowercasing of the characters relevant here: ASCII letters and monotonic
Greek (`str.lower`). -/
def pyLowerChar (c : Char) : Char :=
  let n := c.toNat
  if 0x41 ≤ n && n ≤ 0x5A then Char.ofNat (n + 0x20)
  else if n = 0x386 then Char.ofNat 0x3AC
  else if n = 0x388 then Char.ofNat 0x3AD
  else if n = 0x389 then Char.ofNat 0x3AE
  else if n = 0x38A then Char.ofNat 0x3AF
  else if n = 0x38C then Char.ofNat 0x3CC
  else if n = 0x38E then Char.ofNat 0x3CD
  else if n = 0x38F then Char.ofNat 0x3CE
  else if (0x391 ≤ n && n ≤ 0x3A1) || (0x3A3 ≤ n && n ≤ 0x3AB) then
    Char.ofNat (n + 0x20)
  else c

/-- Case folding used by IGNORECASE literal matching: lowercase, with
CPython's final-sigma equivalence (ς is identified with σ). -/
def caseFold (c : Char) : Char :=
  let l := pyLowerChar c
  if l.toNat = 0x3C2 then Char.ofNat 0x3C3 else l

/-! ### String helpers (`str.strip` family) -/

def lstripL (cs : List Char) : List Char := cs.dropWhile pyIsSpace

def rstripL (cs : List Char) : List Char := (cs.reverse.dropWhile pyIsSpace).reverse

def pyStrip (s : String) : String := String.mk (rstripL (lstripL s.data))

def pyLstrip (s : String) : String := String.mk (lstripL s.data)

def pyRstrip (s : String) : String := String.mk (rstripL s.data)

/-! ### Regex building blocks

Each compiled pattern of the source is embedded as an executable matcher.
A matcher that consumes a prefix returns the unconsumed suffix. -/

/-- Match a literal, comparing case-insensitively: the pattern is stored
already case-folded. -/
def matchLitCI : List Char → List Char → Option (List Char)
  | [], rest => some rest
  | _ :: _, [] => none
  | p :: ps, c :: cs => if caseFold c = p then matchLitCI ps cs else none

/-- Match a literal exactly (case-sensitive pattern). -/
def matchLit : List Char → List Char → Option (List Char)
  | [], rest => some rest
  | _ :: _, [] => none
  | p :: ps, c :: cs => if c = p then matchLit ps cs else none

/-- One-or-more whitespace characters. -/
def matchWsPlus (cs : List Char) : Option (List Char) :=
  match cs with
  | c :: rest => if pyIsSpace c then some (rest.dropWhile pyIsSpace) else none
  | [] => none

/-- The word-boundary assertion at a position known to follow a word
character: it holds when the remainder starts with a non-word character or
is empty. -/
def wordBoundaryAfter (cs : List Char) : Bool :=
  match cs with
  | [] => true
  | c :: _ => !pyIsWordChar c

/-- Case-folded literal words joined by one-or-more whitespace. -/
def matchSeqCI : List (List Char) → List Char → Option (List Char)
  | [], cs => some cs
  | [p], cs => matchLitCI p cs
  | p :: q :: ps, cs =>
    match matchLitCI p cs with
    | none => none
    | some r =>
      match matchWsPlus r with
      | none => none
      | some r2 => matchSeqCI (q :: ps) r2

/-- Does a position-anchored matcher succeed at some position of the list
(the `re.search` loop)? -/
def searchPos (p : List Char → Bool) : List Char → Bool
  | [] => p []
  | c :: cs => p (c :: cs) || searchPos p cs

/-- Exact substring containment (Python's `in` on strings). -/
def containsSub (hay needle : String) : Bool :=
  searchPos (fun cs => (matchLit needle.data cs).isSome) hay.data

/-! ### The compiled patterns of the source

Pattern literals matched case-insensitively are written here already
case-folded (lowercase, final sigma normalised to sigma). -/

/-- ARTICLE_HEAD_RE, IGNORECASE, anchored match. -/
def article_head_match (s : String) : Bool :=
  let cs := lstripL s.data
  match matchLitCI "άρθρο".data cs with
  | none => false
  | some r =>
    match matchWsPlus r with
    | none => false
    | some r2 =>
      let ds := r2.takeWhile pyIsDigit
      decide (1 ≤ ds.length) && wordBoundaryAfter (r2.drop ds.length)

/-- GREEK_LOWER_START, anchored match: first char in U+03B1–U+03C9 or
U+1F00–U+1FFF. -/
def greek_lower_start (s : String) : Bool :=
  match s.data with
  | [] => false
  | c :: _ =>
    (0x3B1 ≤ c.toNat && c.toNat ≤ 0x3C9) || (0x1F00 ≤ c.toNat && c.toNat ≤ 0x1FFF)

/-- PROCLAIM_RE, IGNORECASE, anchored match. -/
def proclaim_match (s : String) : Bool :=
  let cs := lstripL s.data
  let alt (p : String) : Bool :=
    match matchLitCI p.data cs with
    | some r => wordBoundaryAfter r
    | none => false
  alt "παραγγέλλομε" || alt "παραγγέλλουμε" || alt "διατάσσουμε" || alt "κηρύσσουμε"

/-- SIGNATURE_HEADER_RE, IGNORECASE, anchored match. -/
def signature_header_match (s : String) : Bool :=
  let cs := lstripL s.data
  let alt (parts : List String) : Bool :=
    match matchSeqCI (parts.map String.data) cs with
    | some r => wordBoundaryAfter r
    | none => false
  let hProedros : Bool :=
    match matchSeqCI ["η".data, "πρόεδροσ".data] cs with
    | none => false
    | some r =>
      let withOpt : Bool :=
        match matchWsPlus r with
        | none => false
        | some r2 =>
          match matchSeqCI ["τησ".data, "δημοκρατίασ".data] r2 with
          | some r3 => wordBoundaryAfter r3
          | none => false
      withOpt || wordBoundaryAfter r
  alt ["οι", "υπουργοί"] || alt ["ο", "υπουργόσ"] || alt ["η", "υπουργόσ"] ||
  hProedros || alt ["ο", "πρόεδροσ"]

/-- A character of the Greek blocks named in DATE_LINE_RE. -/
def dateGreekChar (c : Char) : Bool :=
  (0x370 ≤ c.toNat && c.toNat ≤ 0x3FF) || (0x1F00 ≤ c.toNat && c.toNat ≤ 0x1FFF)

/-- DATE_LINE_RE, case-sensitive, anchored match. -/
def date_line_match (s : String) : Bool :=
  let cs := lstripL s.data
  match matchLit "Αθήνα,".data cs with
  | none => false
  | some r =>
    let r2 := r.dropWhile pyIsSpace
    let ds := r2.takeWhile pyIsDigit
    if 1 ≤ ds.length && ds.length ≤ 2 then
      match matchWsPlus (r2.drop ds.length) with
      | none => false
      | some r3 =>
        let gs := r3.takeWhile dateGreekChar
        if 1 ≤ gs.length then
          match matchWsPlus (r3.drop gs.length) with
          | none => false
          | some r4 =>
            (r4.take 4).all pyIsDigit && decide ((r4.take 4).length = 4) &&
              wordBoundaryAfter (r4.drop 4)
        else false
    else false

/-- SEAL_LINE_RE, IGNORECASE, anchored match. -/
def seal_line_match (s : String) : Bool :=
  (matchSeqCI ["θεωρήθηκε".data, "και".data, "τέθηκε".data] (lstripL s.data)).isSome

/-- The character class U+0386–U+03AB of UPPER_GREEK_NAME_RE. -/
def upperGreekChar (c : Char) : Bool :=
  0x386 ≤ c.toNat && c.toNat ≤ 0x3AB

/-- The separator class of UPPER_GREEK_NAME_RE: whitespace, hyphen-minus or
en dash. -/
def upperSepChar (c : Char) : Bool :=
  pyIsSpace c || c = '-' || c.toNat = 0x2013

/-- Tail groups of UPPER_GREEK_NAME_RE: one-or-more repetitions of one
separator followed by two-or-more uppercase Greek characters, then end.
The first argument is fuel (each recursive step consumes at least one
character, so the length of the input is enough). -/
def upperGreekGroups : Nat → List Char → Nat → Bool
  | _, [], k => decide (1 ≤ k)
  | 0, _ :: _, _ => false
  | fuel + 1, c :: cs, k =>
    if upperSepChar c then
      let us := cs.takeWhile upperGreekChar
      if us.length < 2 then false
      else upperGreekGroups fuel (cs.drop us.length) (k + 1)
    else false

/-- UPPER_GREEK_NAME_RE, case-sensitive, anchored at both ends. -/
def upper_greek_name_match (s : String) : Bool :=
  let cs := s.data
  let us := cs.takeWhile upperGreekChar
  if us.length < 2 then false
  else upperGreekGroups cs.length (cs.drop us.length) 0

/-- The first Roman-numeral class of ANNEX_HEADING_RE. -/
def romanAsciiChar (c : Char) : Bool :=
  c = 'I' || c = 'V' || c = 'X' || c = 'L' || c = 'C' || c = 'D' || c = 'M' ||
    c.toNat = 0x399 || c.toNat = 0x3A7

/-- The Unicode Roman-numeral class of ANNEX_HEADING_RE (U+2160–U+217F). -/
def romanUniChar (c : Char) : Bool :=
  0x2160 ≤ c.toNat && c.toNat ≤ 0x217F

/-- ANNEX_HEADING_RE, anchored match; on success returns the suffix after the
match (the counterpart of `txt[m.end():]`). The optional Roman-numeral
group is kept only when the following word boundary holds, as the regex
engine's backtracking does. -/
def annex_match_rest (s : String) : Option (List Char) :=
  let cs := lstripL s.data
  match matchLit "ΠΑΡΑΡΤΗΜΑ".data cs with
  | none => none
  | some r =>
    let withRoman : Option (List Char) :=
      match matchWsPlus r with
      | none => none
      | some r2 =>
        let rom1 := r2.takeWhile romanAsciiChar
        if 1 ≤ rom1.length && wordBoundaryAfter (r2.drop rom1.length) then
          some (r2.drop rom1.length)
        else
          let rom2 := r2.takeWhile romanUniChar
          if 1 ≤ rom2.length && wordBoundaryAfter (r2.drop rom2.length) then
            some (r2.drop rom2.length)
          else none
    match withRoman with
    | some rest => some rest
    | none => if wordBoundaryAfter r then some r else none

/-- Source `_is_annex_heading_line`: a genuine standalone ANNEX heading —
ANNEX_HEADING_RE matches and the remainder is not an inline continuation
"του/της/των …" (checked case-insensitively). -/
def is_annex_heading_line (txt : String) : Bool :=
  match annex_match_rest txt with
  | none => false
  | some rest =>
    let after := lstripL rest
    let cont (p : String) : Bool :=
      match matchLitCI p.data after with
      | some r => wordBoundaryAfter r
      | none => false
    !(cont "του" || cont "τησ" || cont "των")

/-- Source `_looks_titleish`: short, no digits, no strong punctuation. -/
def looks_titleish (s : String) : Bool :=
  let ts := pyStrip s
  if ts.data.length < 2 || 60 < ts.data.length then false
  else if ts.data.any pyIsDigit then false
  else !(ts.data.any fun c =>
    c = '.' || c = ':' || c = ';' || c.toNat = 0xB7 || c.toNat = 0x2022 ||
    c.toNat = 0x2014 || c.toNat = 0x2013)

/-- Source `_is_signatureish`. -/
def is_signatureish (line_text : String) : Bool :=
  let ts := pyStrip line_text
  if ts = "" then false
  else if proclaim_match ts then true
  else if signature_header_match ts then true
  else if date_line_match ts then true
  else if seal_line_match ts then true
  else upper_greek_name_match ts

/-! ### Header/footer patterns and filter -/

/-- _ET_GAZETTE_RE at one position (IGNORECASE; the two bracket classes
admit the increment sign U+2206 for Δ and Latin T for Τ). -/
def gazetteAt (cs : List Char) : Bool :=
  match matchLitCI "εφημερι".data cs with
  | none => false
  | some r =>
    match r with
    | [] => false
    | c :: r2 =>
      if caseFold c = 'δ' || c.toNat = 0x2206 then
        match matchLitCI "α".data r2 with
        | none => false
        | some r3 =>
          match matchWsPlus r3 with
          | none => false
          | some r4 =>
            match r4 with
            | [] => false
            | c2 :: r5 =>
              if caseFold c2 = 't' || caseFold c2 = 'τ' then
                match matchLitCI "ησ".data r5 with
                | none => false
                | some r6 =>
                  match matchWsPlus r6 with
                  | none => false
                  | some r7 => (matchLitCI "κυβερνησεωσ".data r7).isSome
              else false
      else false

/-- _ET_GAZETTE_RE.search. -/
def gazette_search (s : String) : Bool := searchPos gazetteAt s.data

/-- _ISSUE_RE, IGNORECASE; the pattern is start-anchored so search equals
match. -/
def issue_match (s : String) : Bool :=
  match matchLitCI "τεύχοσ".data (lstripL s.data) with
  | some r => wordBoundaryAfter r
  | none => false

/-- _SITE_RE.search, IGNORECASE. -/
def site_search (s : String) : Bool :=
  searchPos (fun cs =>
    (matchLitCI "www.et.gr".data cs).isSome ||
    (matchLitCI "helpdesk.et@et.gr".data cs).isSome ||
    (matchLitCI "webmaster.et@et.gr".data cs).isSome) s.data

/-- _CONTACT_RE.search, IGNORECASE. -/
def contact_search (s : String) : Bool :=
  searchPos (fun cs =>
    (matchLitCI "καποδιστρίου".data cs).isSome ||
    (matchSeqCI ["τηλεφωνικο".data, "κεντρο".data] cs).isSome ||
    (matchSeqCI ["εξυπηρετηση".data, "κοινου".data] cs).isSome) s.data

/-- _PAGE_NUM_RE, anchored at both ends. -/
def page_num_match (s : String) : Bool :=
  let cs := lstripL s.data
  let ds := cs.takeWhile pyIsDigit
  decide (3 ≤ ds.length) && decide (ds.length ≤ 5) &&
    ((cs.drop ds.length).dropWhile pyIsSpace).isEmpty

/-- The dash class of _PAGE_COUNTER_RE (_NONASCII_DASHES). -/
def nonAsciiDash (c : Char) : Bool :=
  c.toNat = 0x2012 || c.toNat = 0x2013 || c.toNat = 0x2014 || c.toNat = 0x2212 ||
  c.toNat = 0x2010 || c.toNat = 0x2011

/-- _PAGE_COUNTER_RE, anchored at both ends. -/
def page_counter_match (s : String) : Bool :=
  let cs := lstripL s.data
  let ds := cs.takeWhile pyIsDigit
  if decide (3 ≤ ds.length) && decide (ds.length ≤ 5) then
    match (cs.drop ds.length).dropWhile pyIsSpace with
    | [] => false
    | c :: r2 =>
      if nonAsciiDash c then
        let r3 := r2.dropWhile pyIsSpace
        let ds2 := r3.takeWhile pyIsDigit
        decide (1 ≤ ds2.length) && decide (ds2.length ≤ 2) &&
          ((r3.drop ds2.length).dropWhile pyIsSpace).isEmpty
      else false
  else false

/-! ### The data model: one positioned text line -/

/-- A text line `(x0, y0, x1, y1, text)` as produced by `_iter_lines`
(coordinates already normalised so that `x0 ≤ x1`, `y0 ≤ y1`; the text
already cleaned and non-empty there, though nothing below relies on it). -/
structure Line where
  x0 : ℚ
  y0 : ℚ
  x1 : ℚ
  y1 : ℚ
  txt : String
deriving DecidableEq, Repr

/-- The vertical midpoint `(ln[1] + ln[3]) / 2.0` the source computes
throughout. -/
def ymid (ln : Line) : ℚ := (ln.y0 + ln.y1) / 2

/-- Source `_is_header_footer_line`. -/
def is_header_footer_line (ln : Line) (_page_w page_h : ℚ) : Bool :=
  if ln.txt = "" then false
  else
    let ts := pyStrip ln.txt
    if gazette_search ts || (containsSub ts "ΕΦΗΜΕΡΙ" && containsSub ts "ΚΥΒΕΡΝΗΣ") then
      true
    else
      let top_band := decide (0.88 * page_h ≤ ln.y1) || decide (0.86 * page_h ≤ ln.y0)
      let bot_band := decide (ln.y0 ≤ 0.12 * page_h) || decide (ln.y1 ≤ 0.14 * page_h)
      if !(top_band || bot_band) then false
      else if issue_match ts then true
      else if site_search ts then true
      else if contact_search ts then true
      else page_num_match ts || page_counter_match ts

/-- Source `_filter_headers_footers`. -/
def filter_headers_footers (lines : List Line) (page_w page_h : ℚ) : List Line :=
  lines.filter fun ln => !is_header_footer_line ln page_w page_h

/-! ### Numeric helpers (Python `int`, `//`, `round`, `statistics`) -/

/-- Python `int()` on a real value: truncation toward zero. -/
def pyTrunc (q : ℚ) : ℤ :=
  if q < 0 then -Rat.floor (-q) else Rat.floor q

/-- Python `round()` without digits: nearest integer, ties to even. -/
def pyRound (q : ℚ) : ℤ :=
  let f := Rat.floor q
  let r := q - f
  if r < 1/2 then f
  else if 1/2 < r then f + 1
  else if f % 2 = 0 then f else f + 1

/-- Stable insertion step: `x` goes after every element `y` with `le y x`
(Python's sort is stable; this insertion preserves the relative order of
equal keys when driven by a left fold). -/
def insertLe (le : α → α → Bool) (x : α) : List α → List α
  | [] => [x]
  | y :: ys => if le y x then y :: insertLe le x ys else x :: y :: ys

/-- Stable sort by a boolean total preorder (Python `sorted`). -/
def sortByLe (le : α → α → Bool) (l : List α) : List α :=
  l.foldl (fun acc x => insertLe le x acc) []

/-- `statistics.pvariance` (callers guard the length). -/
def pvariance (l : List ℚ) : ℚ :=
  let n : ℚ := l.length
  let m := l.sum / n
  (l.map fun x => (x - m) ^ 2).sum / n

/-- `statistics.median`: middle of the sorted data, or the mean of the two
middles for an even count. -/
def median (l : List ℚ) : ℚ :=
  let s := sortByLe (fun a b => decide (a ≤ b)) l
  let n := s.length
  if n % 2 = 1 then s.getD (n / 2) 0
  else (s.getD (n / 2 - 1) 0 + s.getD (n / 2) 0) / 2

/-! ### Column split detection (source `_kmeans2_1d`,
`_vertical_occupancy_split`, `_choose_split_x`) -/

/-- One-dimensional 2-means iteration. The fuel is the remaining number of
loop iterations (the source runs `range(12)`); when the centroids move less
than 0.5 the loop breaks, otherwise after the final iteration the loop
exits with the same state, so both cases return the current partition and
the updated centroids. -/
def kmeansGo (xs : List ℚ) : Nat → ℚ → ℚ → Option (ℚ × ℚ × List ℚ × List ℚ)
  | 0, _, _ => none
  | fuel + 1, c1, c2 =>
    let l := xs.filter fun x => decide (|x - c1| ≤ |x - c2|)
    let r := xs.filter fun x => !decide (|x - c1| ≤ |x - c2|)
    if l.isEmpty || r.isEmpty then none
    else
      let n1 := l.sum / l.length
      let n2 := r.sum / r.length
      if decide (|n1 - c1| + |n2 - c2| < 0.5) then some (n1, n2, l, r)
      else
        match fuel with
        | 0 => some (n1, n2, l, r)
        | _ + 1 => kmeansGo xs fuel n1 n2

/-- Source `_kmeans2_1d`: returns `(min centroid, max centroid, cluster
sizes, pooled variance clamped below by 1e-6)`. -/
def kmeans2_1d (xs0 : List ℚ) : Option (ℚ × ℚ × Nat × Nat × ℚ) :=
  if xs0.length < 6 then none
  else
    let xs := sortByLe (fun a b => decide (a ≤ b)) xs0
    match kmeansGo xs 12 (xs.headD 0) (xs.getLastD 0) with
    | none => none
    | some (c1, c2, l, r) =>
      let var1 := if 1 < l.length then pvariance l else 0
      let var2 := if 1 < r.length then pvariance r else 0
      let pooled := (var1 * ((l.length : ℚ) - 1) + var2 * ((r.length : ℚ) - 1)) /
        ((max 1 (l.length + r.length - 2) : Nat) : ℚ)
      some (min c1 c2, max c1 c2, l.length, r.length, max pooled (1 / 1000000))

/-- The left expansion loop of `_vertical_occupancy_split`:
`while L > 0 and sm[L] <= thr: L -= 1`. -/
def expandL (sm : List ℚ) (thr : ℚ) : Nat → Nat
  | 0 => 0
  | l + 1 => if decide (sm.getD (l + 1) 0 ≤ thr) then expandL sm thr l else l + 1

/-- The right expansion loop of `_vertical_occupancy_split`:
`while bins - 1 > R and sm[R] <= thr: R += 1`; the fuel is `bins - 1 - R`. -/
def expandR (sm : List ℚ) (thr : ℚ) : Nat → Nat → Nat
  | 0, r => r
  | fuel + 1, r => if decide (sm.getD r 0 ≤ thr) then expandR sm thr fuel (r + 1) else r

/-- First index (from `i0`) of a strictly smaller value than the best so far
(Python `min` keeps the first minimum). -/
def minIdxVal : List ℚ → Nat → Nat × ℚ → Nat × ℚ
  | [], _, best => best
  | v :: vs, i, (bi, bv) => minIdxVal vs (i + 1) (if v < bv then (i, v) else (bi, bv))

/-- Source `_vertical_occupancy_split`. -/
def vertical_occupancy_split (lines : List Line) (page_w _page_h y_cut : ℚ) :
    Option ℚ :=
  let binsZ : ℤ := max 48 (Rat.floor (page_w / 10))
  let bins : Nat := binsZ.toNat
  if bins = 0 then none
  else
    let hist := lines.foldl (fun hist ln =>
      if decide (ln.y1 ≤ y_cut) then hist
      else
        let b0 := (max 0 (min ((bins : ℤ) - 1) (pyTrunc ((bins : ℚ) * (ln.x0 / page_w))))).toNat
        let b1 := (max 0 (min ((bins : ℤ) - 1) (pyTrunc ((bins : ℚ) * (ln.x1 / page_w))))).toNat
        let h := max 0 (ln.y1 - ln.y0)
        let lo := min b0 b1
        let hi := max b0 b1
        hist.mapIdx fun b v => if lo ≤ b ∧ b ≤ hi then v + h else v)
      (List.replicate bins (0 : ℚ))
    if hist.all fun v => decide (v = 0) then none
    else
      let sm := (List.range bins).map fun i =>
        let j0 := i - 5
        let j1 := min (bins - 1) (i + 5)
        ((hist.drop j0).take (j1 - j0 + 1)).sum / ((max 1 (j1 - j0 + 1) : Nat) : ℚ)
      let mid_lo := (pyTrunc (0.40 * (bins : ℚ))).toNat
      let mid_hi := (pyTrunc (0.60 * (bins : ℚ))).toNat
      if mid_hi ≤ mid_lo then none
      else
        match (sm.drop mid_lo).take (mid_hi - mid_lo) with
        | [] => none
        | v0 :: rest =>
          let p := minIdxVal rest (mid_lo + 1) (mid_lo, v0)
          let min_idx := p.1
          let min_val := p.2
          let med := median sm
          let depth_ok := decide (min_val ≤ 0.5 * med)
          let thr := 0.75 * med
          let L := expandL sm thr min_idx
          let R := expandR sm thr (bins - 1 - min_idx) min_idx
          let width_ok := decide ((0.06 : ℚ) ≤ (((R : ℚ)) - ((L : ℚ))) / (bins : ℚ))
          if !(depth_ok && width_ok) then none
          else some ((min_idx : ℚ) / (bins : ℚ) * page_w)

/-- Source `_choose_split_x`. The source's low-bimodality gate
`gap / math.sqrt(pooled_var) < 2.0` is embedded in its exact squared form
`gap ^ 2 < 4 * pooled_var`: at this point `gap ≥ 0` (it is max minus min of
the centroids) and `pooled_var ≥ 1e-6 > 0`, under which the two
inequalities are equivalent. -/
def choose_split_x (narrow_lines : List Line) (page_w _page_h y_cut : ℚ) :
    Option ℚ :=
  if narrow_lines.isEmpty then none
  else
    let mids := narrow_lines.map fun ln => (ln.x0 + ln.x1) / 2
    match kmeans2_1d mids with
    | none => none
    | some (cL, cR, nL, nR, pooled_var) =>
      let gap := cR - cL
      let min_gap_pts := max 72 (0.14 * page_w)
      if decide (gap < min_gap_pts) || decide (nL < 3) || decide (nR < 3) then none
      else if decide (gap ^ 2 < 4 * pooled_var) then none
      else
        match vertical_occupancy_split narrow_lines page_w _page_h y_cut with
        | some v => some v
        | none => some ((cL + cR) / 2)

/-! ### Sticky split smoothing (source class `SplitSmoother`) -/

/-- The per-signature rolling store of split ratios: the source's
defaultdict of deques (maxlen 7), modelled as a total function with the
defaultdict's default — the empty history. -/
def SmootherStore := (ℤ × ℤ × ℤ) → List ℚ

/-- `SplitSmoother._sig`. -/
def smoother_sig (w h : ℚ) (rot : ℤ) : ℤ × ℤ × ℤ :=
  (pyRound w, pyRound h, rot % 360)

def storeGet (st : SmootherStore) (k : ℤ × ℤ × ℤ) : List ℚ := st k

def storeSet (st : SmootherStore) (k : ℤ × ℤ × ℤ) (v : List ℚ) : SmootherStore :=
  fun k2 => if k2 = k then v else st k2

/-- The store of a fresh `SplitSmoother`. -/
def emptyStore : SmootherStore := fun _ => []

/-- `SplitSmoother.push`: append the ratio, keeping at most the 7 most
recent entries of the signature's deque. -/
def smoother_push (st : SmootherStore) (w h : ℚ) (rot : ℤ) (split_x : ℚ) :
    SmootherStore :=
  let ratio := split_x / max 1 w
  let k := smoother_sig w h rot
  let dq := storeGet st k ++ [ratio]
  let dq2 := if 7 < dq.length then dq.drop (dq.length - 7) else dq
  storeSet st k dq2

/-- `SplitSmoother.median_for`. -/
def smoother_median_for (st : SmootherStore) (w h : ℚ) (rot : ℤ) : Option ℚ :=
  let dq := storeGet st (smoother_sig w h rot)
  if dq.isEmpty then none else some (median dq)

/-- `SplitSmoother.suggest` at the default tolerance 0.15 (the only
tolerance ever used). -/
def smoother_suggest (st : SmootherStore) (w h : ℚ) (rot : ℤ)
    (candidate_split : ℚ) : ℚ :=
  match smoother_median_for st w h rot with
  | none => candidate_split
  | some med =>
    let cand_ratio := candidate_split / max 1 w
    if decide (0.15 < |cand_ratio - med|) then med * w else candidate_split

/-! ### Paragraph joining (source `_lines_to_text`)

The source's inner `_s` accepts an arbitrary dynamically-typed payload.
The payloads that can reach it are modelled by `Payload`: a string, Python
`None`, or any other object represented by an integer (whose Python `str()`
is its decimal rendering). -/

inductive Payload where
  | str (s : String)
  | pynone
  | int (n : ℤ)
deriving DecidableEq, Repr

/-- The sanitiser `_s` of `_lines_to_text`: a string passes through, `None`
becomes the empty string, anything else is rendered by `str()`. -/
def payloadStr : Payload → String
  | .str s => s
  | .pynone => ""
  | .int n => toString n

/-- A line whose text payload is untrusted (what `_lines_to_text` accepts). -/
structure PLine where
  x0 : ℚ
  y0 : ℚ
  x1 : ℚ
  y1 : ℚ
  txt : Payload
deriving DecidableEq, Repr

def Line.toPLine (l : Line) : PLine := ⟨l.x0, l.y0, l.x1, l.y1, .str l.txt⟩

/-- `str.endswith("-")`. -/
def endsWithHyphen (s : String) : Bool :=
  match s.data.getLast? with
  | some c => c = '-'
  | none => false

/-- The loop state of `_lines_to_text`: finished paragraphs, the current
paragraph, and the previous line's `(y0, y1)`. -/
structure JoinState where
  paras : List (List String)
  curr : List String
  lastY : Option (ℚ × ℚ)
deriving DecidableEq, Repr

/-- The local `flush()` of `_lines_to_text`. -/
def joinFlush (st : JoinState) : JoinState :=
  if st.curr.isEmpty then st else ⟨st.paras ++ [st.curr], [], st.lastY⟩

/-- One iteration of the `_lines_to_text` loop body. -/
def lines_to_text_step (st : JoinState) (ln : PLine) : JoinState :=
  let s := payloadStr ln.txt
  match st.lastY with
  | none => ⟨st.paras, st.curr ++ [s], some (ln.y0, ln.y1)⟩
  | some (ly0, ly1) =>
    let vgap := ly0 - ln.y1
    let avg_height := max 1 ((ly1 - ly0 + (ln.y1 - ln.y0)) / 2)
    let st1 := if decide (0.6 * avg_height < vgap) then joinFlush st else st
    let curr2 :=
      if !st1.curr.isEmpty && endsWithHyphen (st1.curr.getLastD "") &&
          greek_lower_start (pyLstrip s) then
        st1.curr.dropLast ++ [(st1.curr.getLastD "").dropRight 1 ++ pyLstrip s]
      else st1.curr ++ [s]
    ⟨st1.paras, curr2, some (ln.y0, ln.y1)⟩

/-- Source `_lines_to_text`: group nearby lines into paragraphs, join with
newlines, de-hyphenate ASCII-hyphen breaks before Greek lowercase. -/
def lines_to_text (lines : List PLine) : String :=
  if lines.isEmpty then ""
  else
    let fin := joinFlush (lines.foldl lines_to_text_step ⟨[], [], none⟩)
    String.intercalate "\n"
      ((fin.paras.filter fun p => !p.isEmpty).map (String.intercalate "\n"))

/-- `_lines_to_text` on lines whose payloads are the strings the page
pipeline produces. -/
def lines_to_text_s (lines : List Line) : String :=
  lines_to_text (lines.map Line.toPLine)

/-! ### Page processing (source class `ColumnExtractor`) -/

/-- Source `PageContext`. -/
structure PageContext where
  page_index : Nat
  width : ℚ
  height : ℚ
  rotation : ℤ
deriving DecidableEq, Repr

/-- The cross-page state of `ColumnExtractor` (`__init__`). -/
structure ExtractorState where
  prev_split_x : Option ℚ
  prev_w : Option ℚ
  smoother : SmootherStore
  terminal_reached : Bool
  seen_any_article : Bool

/-- A fresh `ColumnExtractor`. -/
def initState : ExtractorState := ⟨none, none, emptyStore, false, false⟩

/-- The sort key `lambda L: (-L[3], L[0])` as a boolean total preorder:
descending `y1`, then ascending `x0`. -/
def lineLe (a b : Line) : Bool :=
  decide (b.y1 < a.y1) || (decide (a.y1 = b.y1) && decide (a.x0 ≤ b.x0))

/-- `sorted(lines, key=lambda L: (-L[3], L[0]))` (Python's sort is stable,
as is this insertion sort). -/
def sortLines (l : List Line) : List Line := sortByLe lineLe l

/-- The "lowest article head" scan: the minimum vertical midpoint over the
lines matching ARTICLE_HEAD_RE (the source keeps the smaller value while
iterating, which computes the same minimum). -/
def last_head_y (lines : List Line) : Option ℚ :=
  lines.foldl (fun acc ln =>
    if article_head_match ln.txt then
      let y_mid := ymid ln
      match acc with
      | none => some y_mid
      | some v => some (if y_mid < v then y_mid else v)
    else acc) none

/-- The maximal-run collection loop of `_estimate_column_bottom`. Entries
are `(low, high, length, weight)`; the fuel is the bin count (the index
advances by at least one per step). -/
def collectRuns (both : List Bool) (lc rc : List Nat) : Nat → Nat → List (Nat × Nat × Nat × Nat)
  | 0, _ => []
  | fuel + 1, i =>
    if both.length ≤ i then []
    else if both.getD i false then
      let len := ((both.drop i).takeWhile id).length
      let weight := ((List.range len).map fun k => lc.getD (i + k) 0 + rc.getD (i + k) 0).sum
      (i, i + len - 1, len, weight) :: collectRuns both lc rc fuel (i + len)
    else collectRuns both lc rc fuel (i + 1)

/-- Source `_estimate_column_bottom` (the local helper of `process_page`).
`float('inf')` — no tail zone — is modelled as `none`. -/
def estimate_column_bottom (narrow : List Line) (split_x _w h : ℚ) : Option ℚ :=
  if narrow.isEmpty then none
  else
    let bins : Nat := (max 48 (Rat.floor (h / 15))).toNat
    let cnts := narrow.foldl (fun (p : List Nat × List Nat) ln =>
      let y_mid := ymid ln
      let b := min (bins - 1) (max 0 (pyTrunc ((bins : ℚ) * (y_mid / h)))).toNat
      let mid := (ln.x0 + ln.x1) / 2
      if decide (mid < split_x) then
        (p.1.mapIdx (fun i v => if i = b then v + 1 else v), p.2)
      else
        (p.1, p.2.mapIdx fun i v => if i = b then v + 1 else v))
      (List.replicate bins 0, List.replicate bins 0)
    let left_cnt := cnts.1
    let right_cnt := cnts.2
    let both0 := (List.range bins).map fun i =>
      decide (0 < left_cnt.getD i 0) && decide (0 < right_cnt.getD i 0)
    let both := (List.range bins).foldl (fun b i =>
      if 1 ≤ i ∧ i + 1 < bins then
        if b.getD i false = false ∧ b.getD (i - 1) false = true ∧
            b.getD (i + 1) false = true then
          b.set i true
        else b
      else b) both0
    let runs := collectRuns both left_cnt right_cnt bins 0
    if runs.isEmpty then none
    else
      let le (a b : Nat × Nat × Nat × Nat) : Bool :=
        decide (a.2.2.1 < b.2.2.1) ||
          (decide (a.2.2.1 = b.2.2.1) && decide (a.2.2.2 ≤ b.2.2.2))
      let last := (sortByLe le runs).getLastD (0, 0, 0, 0)
      if last.2.2.1 < max 4 (pyTrunc (0.08 * (bins : ℚ))).toNat then none
      else some (((last.1 : ℚ) / (bins : ℚ)) * h)

/-- The five per-page buckets. -/
structure Buckets where
  wide_upper : List Line
  left : List Line
  right : List Line
  tail_single : List Line
  wide_lower : List Line
deriving DecidableEq, Repr

/-- Line width at least `WIDE_FRAC` (70%) of the page width. -/
def lineWide (ln : Line) (w : ℚ) : Bool :=
  decide (0.7 * w ≤ ln.x1 - ln.x0)

/-- The tail-membership test of the classification loop: below the column
bottom minus the 20pt margin, or an article heading within 24pt of it. -/
def lineBelowBoundary (ln : Line) (yb : ℚ) : Bool :=
  let y_mid := ymid ln
  decide (y_mid < yb - 20) ||
    (article_head_match ln.txt && decide (|y_mid - yb| ≤ 24))

/-- Step 6 of `process_page`: route every line into one of the five
buckets. The source appends to each bucket while iterating once; since
every line lands in exactly one bucket, each bucket equals, in order, a
filter of the input. -/
def classify (lines : List Line) (w split_x : ℚ) (y_bottom : Option ℚ) : Buckets :=
  match y_bottom with
  | some yb =>
    ⟨lines.filter (fun ln => !lineBelowBoundary ln yb && lineWide ln w),
     lines.filter (fun ln => !lineBelowBoundary ln yb && !lineWide ln w &&
       decide ((ln.x0 + ln.x1) / 2 < split_x)),
     lines.filter (fun ln => !lineBelowBoundary ln yb && !lineWide ln w &&
       !decide ((ln.x0 + ln.x1) / 2 < split_x)),
     lines.filter (fun ln => lineBelowBoundary ln yb && !lineWide ln w),
     lines.filter (fun ln => lineBelowBoundary ln yb && lineWide ln w)⟩
  | none =>
    ⟨lines.filter (fun ln => lineWide ln w),
     lines.filter (fun ln => !lineWide ln w && decide ((ln.x0 + ln.x1) / 2 < split_x)),
     lines.filter (fun ln => !lineWide ln w && !decide ((ln.x0 + ln.x1) / 2 < split_x)),
     [], []⟩

/-- Step 6.5 of `process_page`: article cluster promotion. -/
def promote (b : Buckets) (have_tail_zone : Bool) : Buckets :=
  let tail_evidence := (b.tail_single ++ b.wide_lower).any fun ln =>
    proclaim_match ln.txt || is_signatureish ln.txt
  let tail_heads := (b.tail_single ++ b.wide_lower).filter fun ln =>
    article_head_match ln.txt
  if have_tail_zone && tail_evidence && !tail_heads.isEmpty then
    let ys := tail_heads.map fun ln => ymid ln
    let y_head := ys.foldl max (ys.headD 0)
    let moveP (ln : Line) : Bool :=
      let y_mid := ymid ln
      decide (y_mid < y_head) && decide (y_head - y_mid ≤ 64) && looks_titleish ln.txt
    ⟨b.wide_upper,
     b.left.filter (fun ln => !moveP ln),
     b.right.filter (fun ln => !moveP ln),
     b.tail_single ++ b.left.filter moveP ++ b.right.filter moveP,
     b.wide_lower⟩
  else b

/-- Step 7's unbalanced-split test: body line count at least 8 and either
side below `max(3, 0.15 · body)`. -/
def starving (l r : Nat) : Bool :=
  let body := l + r
  decide (8 ≤ body) &&
    (decide ((l : ℚ) < max 3 (0.15 * (body : ℚ))) ||
     decide ((r : ℚ) < max 3 (0.15 * (body : ℚ))))

/-- The reason tag attached to an end-of-document cut. -/
inductive CutReason where
  | proclaim
  | annex
  | signature
  | caps
deriving DecidableEq, Repr

/-- The ALL-CAPS-run scan: lines at or below the last article head are
skipped without resetting the run; the cut lands on the first line of the
first run that reaches length 2. -/
def capsScanGo (lastHead : ℚ) : Option Line → List Line → Option ℚ
  | _, [] => none
  | first, ln :: rest =>
    let y_mid := ymid ln
    if decide (lastHead ≤ y_mid) then capsScanGo lastHead first rest
    else if upper_greek_name_match ln.txt then
      match first with
      | some f => some (ymid f)
      | none => capsScanGo lastHead (some ln) rest
    else capsScanGo lastHead none rest

/-- The standalone-annex stage of the cut decision (run only when no
proclamation matched): below the last article head when one exists —
scanning the tail first, then the column and wide-upper lines — or
anywhere on the page when it has no article head but the document has seen
one. -/
def annex_phase (tail_all_sorted left_sorted right_sorted wide_upper_sorted : List Line)
    (seen_any_article : Bool) (last_head : Option ℚ) : Option (ℚ × CutReason) :=
  match last_head with
  | some lh =>
    match tail_all_sorted.find? (fun ln =>
        decide (ymid ln < lh) && is_annex_heading_line ln.txt) with
    | some ln => some (ymid ln, CutReason.annex)
    | none =>
      match (sortLines (wide_upper_sorted ++ left_sorted ++ right_sorted)).find?
          (fun ln =>
            decide (ymid ln < lh) && is_annex_heading_line ln.txt) with
      | some ln => some (ymid ln, CutReason.annex)
      | none => none
  | none =>
    if seen_any_article then
      match (sortLines (wide_upper_sorted ++ left_sorted ++ right_sorted ++
          tail_all_sorted)).find? (fun ln => is_annex_heading_line ln.txt) with
      | some ln => some (ymid ln, CutReason.annex)
      | none => none
    else none

/-- The signature/date/seal stage: the first tail line that is
signature-like, restricted to lines above the last article head when one
exists. -/
def signature_phase (tail_all_sorted : List Line) (last_head : Option ℚ) :
    Option (ℚ × CutReason) :=
  match tail_all_sorted.find? (fun ln =>
      (match last_head with
       | some lh => decide (ymid ln < lh)
       | none => true) && is_signatureish ln.txt) with
  | some ln => some (ymid ln, CutReason.signature)
  | none => none

/-- The ALL-CAPS-run stage: only when an article head exists. -/
def caps_phase (tail_all_sorted : List Line) (last_head : Option ℚ) :
    Option (ℚ × CutReason) :=
  match last_head with
  | some lh =>
    match capsScanGo lh none tail_all_sorted with
    | some y => some (y, CutReason.caps)
    | none => none
  | none => none

/-- The smart tail-trimming cut decision of `process_page` (two-column
path): proclamation first, then standalone annex headings, then
signature/date/seal anchors, then ALL-CAPS runs — first stage to produce a
cut wins. -/
def eod_cut (tail_all_sorted left_sorted right_sorted wide_upper_sorted : List Line)
    (seen_any_article : Bool) : Option (ℚ × CutReason) :=
  let last_head := last_head_y
    (tail_all_sorted ++ left_sorted ++ right_sorted ++ wide_upper_sorted)
  match tail_all_sorted.find? fun ln => proclaim_match ln.txt with
  | some ln => some (ymid ln, CutReason.proclaim)
  | none =>
    match annex_phase tail_all_sorted left_sorted right_sorted wide_upper_sorted
        seen_any_article last_head with
    | some c => some c
    | none =>
      match signature_phase tail_all_sorted last_head with
      | some c => some c
      | none => caps_phase tail_all_sorted last_head

/-- Source `_keep_above_and_not_annex` (the unified-emission helper):
always drop annex headings; with a cut, keep only lines strictly above it
that are not proclamations. -/
def keep_above_and_not_annex (lines_sorted : List Line) (cut : Option ℚ) : List Line :=
  lines_sorted.filter fun ln =>
    if is_annex_heading_line ln.txt then false
    else
      match cut with
      | none => true
      | some c => decide (c < ymid ln) && !proclaim_match ln.txt

/-- The out_parts assembly of the unified emission: the text of each
non-empty bucket, a blank separator line before every bucket but the
first, joined by newlines, right-stripped. -/
def emit_parts (wu l r ts wl : List Line) : String :=
  let parts0 : List String := if wu.isEmpty then [] else [lines_to_text_s wu]
  let add (parts : List String) (bucket : List Line) : List String :=
    if bucket.isEmpty then parts
    else if parts.isEmpty then [lines_to_text_s bucket]
    else parts ++ ["", lines_to_text_s bucket]
  pyRstrip (String.intercalate "\n" (add (add (add (add parts0 l) r) ts) wl))

/-- The single-column ANNEX cut: the first annex heading strictly below
the page's last (lowest) article head, or — when the page has no article
head but an earlier page had one — the first annex heading anywhere. -/
def onecol_annex_cut (ordered : List Line) (seen : Bool) : Option ℚ :=
  match last_head_y ordered with
  | some lhv =>
    match ordered.find? (fun ln =>
        is_annex_heading_line ln.txt && decide (ymid ln < lhv)) with
    | some ln => some (ymid ln)
    | none => none
  | none =>
    if seen then
      match ordered.find? fun ln => is_annex_heading_line ln.txt with
      | some ln => some (ymid ln)
      | none => none
    else none

/-- The single-column tail of `process_page`: shared by the "no reliable
split" branch (step 4) and the "unbalanced split" branch (step 7), whose
source code is identical. Returns the page's `terminal_reached` flag and
text. -/
def onecol_finish (ordered : List Line) (seen : Bool) : Bool × String :=
  match onecol_annex_cut ordered seen with
  | some cutv =>
    (true, lines_to_text_s (ordered.filter fun ln =>
      decide (cutv < ymid ln) && !is_annex_heading_line ln.txt))
  | none =>
    (ordered.any fun ln => proclaim_match ln.txt || is_signatureish ln.txt,
     lines_to_text_s ordered)

/-- Steps 8–9 of `process_page` on the accepted two-column path: sort the
buckets, decide the end-of-document cut, mark `terminal_reached` exactly
when a cut reason was chosen, apply the cut to every bucket and emit.
Returns the new extractor state (the split and width are remembered for the
next page) and the page text. -/
def twocol_emit (sx w : ℚ) (sm2 : SmootherStore) (seen : Bool) (b : Buckets) :
    ExtractorState × String :=
  let left_sorted := sortLines b.left
  let right_sorted := sortLines b.right
  let wide_upper_sorted := sortLines b.wide_upper
  let tail_single_sorted := sortLines b.tail_single
  let wide_lower_sorted := sortLines b.wide_lower
  let tail_all_sorted := sortLines (tail_single_sorted ++ wide_lower_sorted)
  let cut := eod_cut tail_all_sorted left_sorted right_sorted wide_upper_sorted seen
  let y_cut := cut.map Prod.fst
  let text := emit_parts
    (keep_above_and_not_annex wide_upper_sorted y_cut)
    (keep_above_and_not_annex left_sorted y_cut)
    (keep_above_and_not_annex right_sorted y_cut)
    (keep_above_and_not_annex tail_single_sorted y_cut)
    (keep_above_and_not_annex wide_lower_sorted y_cut)
  (⟨some sx, some w, sm2, cut.isSome, seen⟩, text)

/-- Source `ColumnExtractor.process_page`, with the mutated extractor state
made explicit: returns the state after the page and the page's text. -/
def process_page (st : ExtractorState) (ctx : PageContext) (lines0 : List Line) :
    ExtractorState × String :=
  let w := ctx.width
  let h := ctx.height
  let rot := ctx.rotation
  let lines := filter_headers_footers lines0 w h
  let page_has_article := lines.any fun ln => article_head_match ln.txt
  let seen := st.seen_any_article || page_has_article
  let narrow_for_split := lines.filter fun ln => decide (ln.x1 - ln.x0 < 0.7 * w)
  let split_x0 := choose_split_x narrow_for_split w h 0
  let split_x1 : Option ℚ :=
    match split_x0 with
    | some v => some v
    | none =>
      match st.prev_split_x, st.prev_w with
      | some pv, some pw =>
        if pw ≠ 0 ∧ |pw - w| < 0.5 then some pv else none
      | _, _ => none
  match split_x1 with
  | none =>
    let ordered := sortLines lines
    let res := onecol_finish ordered seen
    (⟨st.prev_split_x, st.prev_w, st.smoother, res.1, seen⟩, res.2)
  | some sx0 =>
    let sx := smoother_suggest st.smoother w h rot sx0
    let sm2 := smoother_push st.smoother w h rot sx
    let y_bottom := estimate_column_bottom narrow_for_split sx w h
    let b := promote (classify lines w sx y_bottom) y_bottom.isSome
    if starving b.left.length b.right.length then
      let ordered := sortLines lines
      let res := onecol_finish ordered seen
      (⟨st.prev_split_x, st.prev_w, sm2, res.1, seen⟩, res.2)
    else
      twocol_emit sx w sm2 seen b

/-! ### Document driver (source `extract_text_whole`) -/

/-- One page as delivered by the layout backend: geometry plus the page's
lines (already in `_iter_lines` form). -/
structure PageInput where
  width : ℚ
  height : ℚ
  rotation : ℤ
  lines : List Line
deriving DecidableEq, Repr

/-- The page loop of `extract_text_whole`: a page with no lines contributes
an empty string and is never processed; otherwise the page is processed
and, if it reports a terminal anchor, the loop stops — every later page is
dropped. -/
def run_pages (st : ExtractorState) (i : Nat) : List PageInput → List String
  | [] => []
  | p :: rest =>
    if p.lines.isEmpty then "" :: run_pages st (i + 1) rest
    else
      let r := process_page st ⟨i, p.width, p.height, p.rotation⟩ p.lines
      if r.1.terminal_reached then [r.2]
      else r.2 :: run_pages r.1 (i + 1) rest

/-- Source `extract_text_whole`: page texts joined by a blank line, right
whitespace stripped. -/
def extract_text_whole (pages : List PageInput) : String :=
  pyRstrip (String.intercalate "\n\n" (run_pages initState 0 pages))

/-- The index of the page at which the loop of `extract_text_whole` stops
(the first processed page whose state reports `terminal_reached`). -/
def stop_index (st : ExtractorState) (i : Nat) : List PageInput → Option Nat
  | [] => none
  | p :: rest =>
    if p.lines.isEmpty then stop_index st (i + 1) rest
    else
      let r := process_page st ⟨i, p.width, p.height, p.rotation⟩ p.lines
      if r.1.terminal_reached then some i
      else stop_index r.1 (i + 1) rest

/-! ## Concrete pages used by witnesses and counterexamples

A 480×480pt page with two clear narrow-line columns (midpoints 60 and
420): the 2-means gates pass, the occupancy valley is accepted, and the
chosen split is 190. -/

def balanced_page : List Line :=
  [⟨40, 100, 80, 110, "a"⟩, ⟨40, 100, 80, 110, "a"⟩, ⟨40, 100, 80, 110, "a"⟩,
   ⟨400, 100, 440, 110, "b"⟩, ⟨400, 100, 440, 110, "b"⟩, ⟨400, 100, 440, 110, "b"⟩]

/-- A one-line page whose only line is a proclamation clause. -/
def proclaim_page : List Line := [⟨100, 500, 300, 510, "Διατάσσουμε αβ"⟩]

/-! ## Verification of the claims -/

/-! ### C4 — the unbalanced-split revert condition -/

/-- The revert condition as the claim words it: body line count at least 8
and either side holding fewer than 15% of that total. -/
def spec_unbalanced (l r : Nat) : Bool :=
  decide (8 ≤ l + r) &&
    (decide ((l : ℚ) < (15 / 100) * ((l + r : Nat) : ℚ)) ||
     decide ((r : ℚ) < (15 / 100) * ((l + r : Nat) : ℚ)))

/-- The revert condition as the code has it (`max(3, 0.15 · body)`), written
from the amended claim's words for comparison with `starving`. -/
def spec_unbalanced_amended (l r : Nat) : Bool :=
  decide (8 ≤ l + r) &&
    (decide ((l : ℚ) < max 3 ((15 / 100) * ((l + r : Nat) : ℚ))) ||
     decide ((r : ℚ) < max 3 ((15 / 100) * ((l + r : Nat) : ℚ))))

/-- A follow-up page (sticky split 190 from `balanced_page`) that routes 2
lines left of the split and 8 right of it, interleaved vertically. -/
def c4_page : List Line :=
  [⟨40, 410, 80, 420, "κ1"⟩,
   ⟨400, 380, 440, 390, "ρ1"⟩, ⟨400, 360, 440, 370, "ρ2"⟩, ⟨400, 340, 440, 350, "ρ3"⟩,
   ⟨400, 320, 440, 330, "ρ4"⟩, ⟨400, 300, 440, 310, "ρ5"⟩,
   ⟨40, 280, 80, 290, "κ2"⟩,
   ⟨400, 260, 440, 270, "ρ6"⟩, ⟨400, 240, 440, 250, "ρ7"⟩, ⟨400, 220, 440, 230, "ρ8"⟩]

/-- C4 counterexample: with 2 lines left and 8 right the claim's condition
(body ≥ 8 and either side < 15% of body) is false — 2 ≥ 0.15·10 — so the
claim predicts the two-column assembly; the code's `starving` test is true
(2 < max(3, 1.5)) and the page reverts to single-column ordering: its
output interleaves the κ and ρ lines by height instead of grouping the
left column before the right one. -/
theorem C4_counterexample :
    spec_unbalanced 2 8 = false ∧ starving 2 8 = true ∧
    (process_page (process_page initState ⟨0, 480, 480, 0⟩ balanced_page).1
        ⟨1, 480, 480, 0⟩ c4_page).2 =
      "κ1\nρ1\nρ2\nρ3\nρ4\nρ5\nκ2\nρ6\nρ7\nρ8" := by
  refine ⟨by decide, by decide, by decide⟩

/-- C4 amended: the page reverts to single-column ordering exactly when
the body line count `len(left) + len(right)` is at least 8 and either side
holds fewer than `max(3, 15%)` of that total — `process_page` branches to
the revert path precisely on `starving`, and `starving` equals the amended
condition. -/
theorem C4_revert_condition :
    ∀ l r : Nat, starving l r = spec_unbalanced_amended l r := by
  intro l r
  simp only [starving, spec_unbalanced_amended]
  norm_num

/-! ### C5 — hyphenation repair in the paragraph joiner -/

/-- The word "καλό" ending in a soft hyphen (U+00AD). -/
def soft_hyphen_word : String := "καλό" ++ String.mk [Char.ofNat 0xAD]

/-- C5 counterexample: the claim's hyphen class includes the soft hyphen,
so joining ["καλό" + U+00AD, "τερα"] (same paragraph, next line starts
with a Greek lowercase letter) should merge to "καλότερα"; the code only
merges on the ASCII hyphen-minus and keeps the two lines separate. -/
theorem C5_counterexample :
    soft_hyphen_word.data.getLast? = some (Char.ofNat 0xAD) ∧
    greek_lower_start "τερα" = true ∧
    lines_to_text_s [⟨0, 90, 100, 100, soft_hyphen_word⟩, ⟨0, 78, 100, 88, "τερα"⟩] =
      soft_hyphen_word ++ "\n" ++ "τερα" ∧
    lines_to_text_s [⟨0, 90, 100, 100, soft_hyphen_word⟩, ⟨0, 78, 100, 88, "τερα"⟩] ≠
      "καλότερα" := by
  refine ⟨by decide, by decide, by decide, by decide⟩

/-- C5 amended: within one paragraph (no flush: the vertical gap does not
exceed 0.6 of the average line height), a next line is merged into the
accumulated text exactly when that text ends with the ASCII hyphen-minus
and the stripped next line starts with a character of the Greek ranges
U+03B1–U+03C9 or U+1F00–U+1FFF — the hyphen is dropped and the texts are
concatenated without a space; otherwise the line is appended unchanged.
The spec's examples hold: ["καλό-", "τερα"] joins to "καλότερα" and
["ΑΘΗΝΑ-", "ΘΕΣΣΑΛΟΝΙΚΗ"] stays unmerged. -/
theorem C5_hyphen_repair :
    (∀ (st : JoinState) (ln : PLine) (ly0 ly1 : ℚ),
      st.lastY = some (ly0, ly1) →
      ¬ (0.6 * max 1 ((ly1 - ly0 + (ln.y1 - ln.y0)) / 2) < ly0 - ln.y1) →
      st.curr ≠ [] →
      (lines_to_text_step st ln).curr =
        (if endsWithHyphen (st.curr.getLastD "") &&
            greek_lower_start (pyLstrip (payloadStr ln.txt)) then
          st.curr.dropLast ++
            [(st.curr.getLastD "").dropRight 1 ++ pyLstrip (payloadStr ln.txt)]
        else st.curr ++ [payloadStr ln.txt])) ∧
    lines_to_text_s [⟨0, 90, 100, 100, "καλό-"⟩, ⟨0, 78, 100, 88, "τερα"⟩] =
      "καλότερα" ∧
    lines_to_text_s [⟨0, 90, 100, 100, "ΑΘΗΝΑ-"⟩, ⟨0, 78, 100, 88, "ΘΕΣΣΑΛΟΝΙΚΗ"⟩] =
      "ΑΘΗΝΑ-\nΘΕΣΣΑΛΟΝΙΚΗ" := by
  refine ⟨?_, by decide, by decide⟩
  intro st ln ly0 ly1 hY hGap hCurr
  obtain ⟨paras, curr, lastY⟩ := st
  cases curr with
  | nil => exact absurd rfl hCurr
  | cons c0 cs =>
    change lastY = some (ly0, ly1) at hY
    subst hY
    show (lines_to_text_step ⟨paras, c0 :: cs, some (ly0, ly1)⟩ ln).curr = _
    simp only [lines_to_text_step, decide_eq_false hGap, Bool.false_eq_true, if_false,
      List.isEmpty_cons, Bool.not_false, Bool.true_and]

/-- C5 witness: the merging branch of the joiner step at a concrete state. -/
theorem C5_hyphen_repair_witness :
    (lines_to_text_step ⟨[], ["καλό-"], some (90, 100)⟩
      ⟨0, 78, 100, 88, Payload.str "τερα"⟩).curr = ["καλότερα"] := by
  have h := C5_hyphen_repair.1 ⟨[], ["καλό-"], some (90, 100)⟩
    ⟨0, 78, 100, 88, Payload.str "τερα"⟩ 90 100 rfl (by decide) (by decide)
  rw [h]
  decide

/-! ### C6 — the sticky split smoother -/

/-- C6 counterexample: at page width 1/2, the code's ratios divide by
`max(1, w) = 1`, not by the width. The store holds the single pushed ratio
1/4 (= 0.25 / max(1, 0.5)); for candidate 7/20 the claim's ratio
`candidate/width = 7/10` deviates from the median 1/4 by 9/20 > 0.15, so
the claim requires `median·width = 1/8` — but `suggest` returns the
candidate 7/20 unchanged. -/
theorem C6_counterexample :
    storeGet (smoother_push emptyStore (1 / 2) 1 0 (1 / 4))
      (smoother_sig (1 / 2) 1 0) = [1 / 4] ∧
    (0.15 : ℚ) < |(7 / 20 : ℚ) / (1 / 2) - 1 / 4| ∧
    smoother_suggest (smoother_push emptyStore (1 / 2) 1 0 (1 / 4))
      (1 / 2) 1 0 (7 / 20) = 7 / 20 ∧
    (7 / 20 : ℚ) ≠ (1 / 4) * (1 / 2) := by
  refine ⟨by decide, by decide, by decide, by decide⟩

/-- C6 amended: `suggest` returns the candidate unchanged when the
signature has no history; otherwise it snaps to `median · width` exactly
when the candidate's ratio `candidate / max(1, width)` deviates from the
stored-history median by more than 0.15. The per-signature history never
exceeds 7 entries, and the spec's scenario holds: after pushing ratios
0.50, 0.51, 0.49 under one signature, a 0.90-ratio candidate comes back as
the 0.50-median value. -/
theorem C6_suggest_median_snap :
    (∀ (st : SmootherStore) (w h : ℚ) (rot : ℤ) (c : ℚ),
      smoother_suggest st w h rot c =
        match storeGet st (smoother_sig w h rot) with
        | [] => c
        | dq => if decide (0.15 < |c / max 1 w - median dq|) then median dq * w else c) ∧
    (∀ (st : SmootherStore) (w h : ℚ) (rot : ℤ) (x : ℚ) (k : ℤ × ℤ × ℤ),
      (storeGet st k).length ≤ 7 →
      (storeGet (smoother_push st w h rot x) k).length ≤ 7) ∧
    smoother_suggest
      (smoother_push (smoother_push (smoother_push emptyStore 1000 1000 0 500)
        1000 1000 0 510) 1000 1000 0 490) 1000 1000 0 900 = (1 / 2) * 1000 := by
  refine ⟨?_, ?_, by decide⟩
  · intro st w h rot c
    cases hq : storeGet st (smoother_sig w h rot) with
    | nil => simp [smoother_suggest, smoother_median_for, hq]
    | cons a l => simp [smoother_suggest, smoother_median_for, hq]
  · intro st w h rot x k hk
    have hTrim : ∀ (l : List ℚ) (r : ℚ), l.length ≤ 7 →
        (if 7 < (l ++ [r]).length then (l ++ [r]).drop ((l ++ [r]).length - 7)
         else l ++ [r]).length ≤ 7 := by
      intro l r hl
      by_cases h7 : 7 < (l ++ [r]).length
      · simp only [if_pos h7, List.length_drop]
        omega
      · simp only [if_neg h7]
        simp only [List.length_append, List.length_singleton] at h7 ⊢
        omega
    by_cases hks : k = smoother_sig w h rot
    · subst hks
      have hget : storeGet (smoother_push st w h rot x) (smoother_sig w h rot) =
          (if 7 < (storeGet st (smoother_sig w h rot) ++ [x / max 1 w]).length then
            (storeGet st (smoother_sig w h rot) ++ [x / max 1 w]).drop
              ((storeGet st (smoother_sig w h rot) ++ [x / max 1 w]).length - 7)
          else storeGet st (smoother_sig w h rot) ++ [x / max 1 w]) := by
        simp [smoother_push, storeGet, storeSet]
      rw [hget]
      exact hTrim _ _ hk
    · simpa only [smoother_push, storeGet, storeSet, if_neg hks] using hk

/-! ### C9 — non-string text payloads in the assembler -/

/-- C9 counterexample: a line whose payload is the integer 42 is not
coerced to the empty string — the assembled output is "42", the `str()`
rendering of the payload. -/
theorem C9_counterexample :
    lines_to_text [⟨0, 90, 100, 100, Payload.int 42⟩] = "42" ∧
    ("42" : String) ≠ "" := by
  refine ⟨by decide, by decide⟩

/-- C9 amended: the assembler is total over arbitrary payloads and reads a
payload only through the sanitiser `_s` — running it on any line list is
the same as running it after replacing every payload by the string `_s`
yields (so no payload object itself ever reaches the output; a `None`
payload contributes the empty string, any other non-string payload its
`str()` rendering). -/
theorem C9_payload_sanitised :
    (∀ lines : List PLine,
      lines_to_text lines =
        lines_to_text (lines.map fun ln =>
          ⟨ln.x0, ln.y0, ln.x1, ln.y1, Payload.str (payloadStr ln.txt)⟩)) ∧
    (∀ g0 g1 g2 g3 : ℚ, lines_to_text [⟨g0, g1, g2, g3, Payload.pynone⟩] = "") := by
  constructor
  · intro lines
    have hfun : (fun (s : JoinState) (ln : PLine) =>
        lines_to_text_step s ⟨ln.x0, ln.y0, ln.x1, ln.y1, Payload.str (payloadStr ln.txt)⟩) =
        lines_to_text_step := by
      funext s ln
      rfl
    have hie : ∀ l : List PLine,
        (l.map fun ln =>
          (⟨ln.x0, ln.y0, ln.x1, ln.y1, Payload.str (payloadStr ln.txt)⟩ : PLine)).isEmpty =
          l.isEmpty := by
      intro l
      cases l <;> rfl
    simp only [lines_to_text, hie, List.foldl_map, hfun]
  · intro g0 g1 g2 g3
    rfl

/-! ### C3 — what the unified emission keeps -/

/-- A balanced two-column page whose left column starts with a proclamation
line; the page has no tail zone, so no cut is chosen. -/
def c3_page : List Line :=
  [⟨40, 100, 80, 110, "Διατάσσουμε αβ"⟩, ⟨40, 100, 80, 110, "a"⟩,
   ⟨40, 100, 80, 110, "a"⟩,
   ⟨400, 100, 440, 110, "b"⟩, ⟨400, 100, 440, 110, "b"⟩, ⟨400, 100, 440, 110, "b"⟩]

/-- C3 counterexample: proclamation lines are not "always dropped
regardless of cut": with no cut the emission helper keeps a proclamation
line, and on a balanced two-column page with no cut the emitted page text
contains the proclamation line verbatim. -/
theorem C3_counterexample :
    proclaim_match "Διατάσσουμε αβ" = true ∧
    keep_above_and_not_annex [⟨40, 100, 80, 110, "Διατάσσουμε αβ"⟩] none =
      [⟨40, 100, 80, 110, "Διατάσσουμε αβ"⟩] ∧
    (process_page initState ⟨0, 480, 480, 0⟩ c3_page).2 =
      "Διατάσσουμε αβ\na\na\n\nb\nb\nb" := by
  refine ⟨by decide, by decide, by decide⟩

/-- C3 amended: the emission helper keeps exactly the lines that are not
annex headings and — only when a cut exists — lie strictly above the cut
and are not proclamation lines; with no cut every non-annex line is kept,
proclamation lines included. -/
theorem C3_emission_filter :
    ∀ (lines : List Line) (cut : Option ℚ),
      keep_above_and_not_annex lines cut = lines.filter fun ln =>
        !is_annex_heading_line ln.txt &&
          match cut with
          | none => true
          | some c => decide (c < ymid ln) && !proclaim_match ln.txt := by
  intro lines cut
  unfold keep_above_and_not_annex
  congr 1
  funext ln
  cases h : is_annex_heading_line ln.txt <;> cases cut <;> simp [h]

/-! ### C10 — the single-column path keeps its anchors -/

/-- C10: on the no-reliable-split path (fresh split memory, detector
returns none), when no annex cut is found but some line is a proclamation
or signature-like anchor, the page is marked terminal yet emitted in full:
the text is the joiner applied to the complete ordered line set, anchor
lines included. -/
theorem C10_onecol_keeps_anchors :
    ∀ (st : ExtractorState) (ctx : PageContext) (lines0 : List Line),
    st.prev_split_x = none →
    choose_split_x ((filter_headers_footers lines0 ctx.width ctx.height).filter fun ln =>
        decide (ln.x1 - ln.x0 < 0.7 * ctx.width)) ctx.width ctx.height 0 = none →
    onecol_annex_cut (sortLines (filter_headers_footers lines0 ctx.width ctx.height))
      (st.seen_any_article ||
        (filter_headers_footers lines0 ctx.width ctx.height).any fun ln =>
          article_head_match ln.txt) = none →
    (∃ ln ∈ sortLines (filter_headers_footers lines0 ctx.width ctx.height),
      proclaim_match ln.txt = true ∨ is_signatureish ln.txt = true) →
    (process_page st ctx lines0).1.terminal_reached = true ∧
    (process_page st ctx lines0).2 =
      lines_to_text_s (sortLines (filter_headers_footers lines0 ctx.width ctx.height)) := by
  intro st ctx lines0 hprev hsplit hannex hex
  have hany : (sortLines (filter_headers_footers lines0 ctx.width ctx.height)).any
      (fun ln => proclaim_match ln.txt || is_signatureish ln.txt) = true := by
    rw [List.any_eq_true]
    obtain ⟨ln, hmem, hp⟩ := hex
    exact ⟨ln, hmem, by rcases hp with h | h <;> simp [h]⟩
  simp only [process_page, hsplit, hprev, onecol_finish, hannex, hany, and_self]

/-- C10 witness: a one-line proclamation page. -/
theorem C10_onecol_keeps_anchors_witness :
    (process_page initState ⟨0, 1000, 1000, 0⟩ proclaim_page).1.terminal_reached = true ∧
    (process_page initState ⟨0, 1000, 1000, 0⟩ proclaim_page).2 =
      lines_to_text_s (sortLines (filter_headers_footers proclaim_page 1000 1000)) :=
  C10_onecol_keeps_anchors initState ⟨0, 1000, 1000, 0⟩ proclaim_page rfl (by decide)
    (by decide) ⟨⟨100, 500, 300, 510, "Διατάσσουμε αβ"⟩, by decide, Or.inl (by decide)⟩

/-! ### C7 — the refined-valley search range -/

/-- `vertical_occupancy_split` exactly as §4.1 of the spec words it
("search the middle 20%–60% bin range for the deepest valley"): identical
to the source embedding except that the lower bound of the search range is
`int(0.20 · bins)` where the source has `int(0.40 · bins)`. Spec-side
definition, for comparison only. -/
def vertical_occupancy_split_spec20 (lines : List Line) (page_w _page_h y_cut : ℚ) :
    Option ℚ :=
  let binsZ : ℤ := max 48 (Rat.floor (page_w / 10))
  let bins : Nat := binsZ.toNat
  if bins = 0 then none
  else
    let hist := lines.foldl (fun hist ln =>
      if decide (ln.y1 ≤ y_cut) then hist
      else
        let b0 := (max 0 (min ((bins : ℤ) - 1) (pyTrunc ((bins : ℚ) * (ln.x0 / page_w))))).toNat
        let b1 := (max 0 (min ((bins : ℤ) - 1) (pyTrunc ((bins : ℚ) * (ln.x1 / page_w))))).toNat
        let h := max 0 (ln.y1 - ln.y0)
        let lo := min b0 b1
        let hi := max b0 b1
        hist.mapIdx fun b v => if lo ≤ b ∧ b ≤ hi then v + h else v)
      (List.replicate bins (0 : ℚ))
    if hist.all fun v => decide (v = 0) then none
    else
      let sm := (List.range bins).map fun i =>
        let j0 := i - 5
        let j1 := min (bins - 1) (i + 5)
        ((hist.drop j0).take (j1 - j0 + 1)).sum / ((max 1 (j1 - j0 + 1) : Nat) : ℚ)
      let mid_lo := (pyTrunc (0.20 * (bins : ℚ))).toNat
      let mid_hi := (pyTrunc (0.60 * (bins : ℚ))).toNat
      if mid_hi ≤ mid_lo then none
      else
        match (sm.drop mid_lo).take (mid_hi - mid_lo) with
        | [] => none
        | v0 :: rest =>
          let p := minIdxVal rest (mid_lo + 1) (mid_lo, v0)
          let min_idx := p.1
          let min_val := p.2
          let med := median sm
          let depth_ok := decide (min_val ≤ 0.5 * med)
          let thr := 0.75 * med
          let L := expandL sm thr min_idx
          let R := expandR sm thr (bins - 1 - min_idx) min_idx
          let width_ok := decide ((0.06 : ℚ) ≤ (((R : ℚ)) - ((L : ℚ))) / (bins : ℚ))
          if !(depth_ok && width_ok) then none
          else some ((min_idx : ℚ) / (bins : ℚ) * page_w)

/-- C7 counterexample: on `balanced_page` (width 480, 48 bins) the k-means
gates pass and the accepted valley of the source's 40%–60% search is bin
19, split 190; the deepest valley of the claim's 20%–60% range is bin 14,
split 140 — the returned split is not the deepest valley of the 20%–60%
range. -/
theorem C7_counterexample :
    choose_split_x balanced_page 480 480 0 = some 190 ∧
    vertical_occupancy_split balanced_page 480 480 0 = some 190 ∧
    vertical_occupancy_split_spec20 balanced_page 480 480 0 = some 140 ∧
    (190 : ℚ) ≠ 140 := by
  refine ⟨by decide, by decide, by decide, by decide⟩

/-- C7 amended: whenever the k-means gates pass (two clusters of at least 3
narrow-line midpoints, centroid gap at least max(72, 0.14·width), strong
bimodality), the chosen split is the accepted valley of the
stroke-height-weighted occupancy histogram — searched over the middle
40%–60% bin range — and the midpoint of the two centroids when the valley
is rejected. -/
theorem C7_gates_then_valley :
    ∀ (narrow : List Line) (w h yc cL cR : ℚ) (nL nR : Nat) (pv : ℚ),
    kmeans2_1d (narrow.map fun ln => (ln.x0 + ln.x1) / 2) = some (cL, cR, nL, nR, pv) →
    ¬ (cR - cL < max 72 (0.14 * w)) → 3 ≤ nL → 3 ≤ nR →
    ¬ ((cR - cL) ^ 2 < 4 * pv) →
    choose_split_x narrow w h yc =
      some (match vertical_occupancy_split narrow w h yc with
            | some v => v
            | none => (cL + cR) / 2) := by
  intro narrow w h yc cL cR nL nR pv hkm hgap hnL hnR hvar
  cases narrow with
  | nil => simp [kmeans2_1d] at hkm
  | cons a l =>
    unfold choose_split_x
    simp only [List.isEmpty_cons, Bool.false_eq_true, if_false, hkm,
      decide_eq_false hgap, decide_eq_false hvar,
      decide_eq_false (Nat.not_lt.mpr hnL), decide_eq_false (Nat.not_lt.mpr hnR),
      Bool.or_self, Bool.or_false, if_false]
    cases hv : vertical_occupancy_split (a :: l) w h yc <;> simp [hv]

/-- C7 witness: the gates pass on `balanced_page`. -/
theorem C7_gates_then_valley_witness :
    choose_split_x balanced_page 480 480 0 =
      some (match vertical_occupancy_split balanced_page 480 480 0 with
            | some v => v
            | none => (60 + 420) / 2) :=
  C7_gates_then_valley balanced_page 480 480 0 60 420 3 3 (1 / 1000000)
    (by decide) (by decide) (by decide) (by decide) (by decide)

/-! ### C8 — fewer than 6 narrow lines -/

/-- Two narrow lines on a page following `balanced_page`: the sticky split
(190) is reused, so the page is assembled in two columns. -/
def c8_page : List Line :=
  [⟨40, 100, 80, 110, "Α"⟩, ⟨400, 400, 440, 410, "Β"⟩]

/-- C8 counterexample: `c8_page` has 2 (< 6) narrow lines, but processed
after `balanced_page` it reuses the remembered split and is emitted left
bucket before right bucket — "Α" before "Β" — although "Β" lies above "Α";
the top-to-bottom, left-to-right order of the page's lines would put "Β"
first. -/
theorem C8_counterexample :
    ((filter_headers_footers c8_page 480 480).filter fun ln =>
      decide (ln.x1 - ln.x0 < 0.7 * 480)).length = 2 ∧
    (process_page (process_page initState ⟨0, 480, 480, 0⟩ balanced_page).1
        ⟨1, 480, 480, 0⟩ c8_page).2 = "Α\n\nΒ" ∧
    lines_to_text_s (sortLines c8_page) = "Β\nΑ" ∧
    ("Α\n\nΒ" : String) ≠ "Β\nΑ" := by
  refine ⟨by decide, by decide, by decide, by decide⟩

/-- C8 amended: on a page with fewer than 6 narrow lines processed with no
remembered split from an earlier page, the emitted text is the joiner
applied to an order-preserving selection of the lines sorted
top-to-bottom, left-to-right — and to the full sorted line set whenever no
single-column annex cut applies. -/
theorem C8_fresh_single_column :
    ∀ (st : ExtractorState) (ctx : PageContext) (lines0 : List Line),
    st.prev_split_x = none →
    ((filter_headers_footers lines0 ctx.width ctx.height).filter fun ln =>
      decide (ln.x1 - ln.x0 < 0.7 * ctx.width)).length < 6 →
    ∃ kept : List Line,
      kept.Sublist (sortLines (filter_headers_footers lines0 ctx.width ctx.height)) ∧
      (process_page st ctx lines0).2 = lines_to_text_s kept ∧
      (onecol_annex_cut (sortLines (filter_headers_footers lines0 ctx.width ctx.height))
          (st.seen_any_article ||
            (filter_headers_footers lines0 ctx.width ctx.height).any fun ln =>
              article_head_match ln.txt) = none →
        kept = sortLines (filter_headers_footers lines0 ctx.width ctx.height)) := by
  intro st ctx lines0 hprev hlen
  have hsplit : choose_split_x
      ((filter_headers_footers lines0 ctx.width ctx.height).filter fun ln =>
        decide (ln.x1 - ln.x0 < 0.7 * ctx.width)) ctx.width ctx.height 0 = none := by
    unfold choose_split_x
    by_cases hne : ((filter_headers_footers lines0 ctx.width ctx.height).filter fun ln =>
        decide (ln.x1 - ln.x0 < 0.7 * ctx.width)).isEmpty
    · rw [if_pos hne]
    · rw [if_neg hne]
      have hkm : kmeans2_1d
          (((filter_headers_footers lines0 ctx.width ctx.height).filter fun ln =>
            decide (ln.x1 - ln.x0 < 0.7 * ctx.width)).map fun ln =>
              (ln.x0 + ln.x1) / 2) = none := by
        unfold kmeans2_1d
        rw [if_pos]
        simpa [List.length_map] using hlen
      simp only [hkm]
  simp only [process_page, hsplit, hprev, onecol_finish]
  cases hannex : onecol_annex_cut
      (sortLines (filter_headers_footers lines0 ctx.width ctx.height))
      (st.seen_any_article ||
        (filter_headers_footers lines0 ctx.width ctx.height).any fun ln =>
          article_head_match ln.txt) with
  | none =>
    exact ⟨sortLines (filter_headers_footers lines0 ctx.width ctx.height),
      List.Sublist.refl _, rfl, fun _ => rfl⟩
  | some cutv =>
    refine ⟨(sortLines (filter_headers_footers lines0 ctx.width ctx.height)).filter
      (fun ln => decide (cutv < ymid ln) && !is_annex_heading_line ln.txt),
      List.filter_sublist _, rfl, fun hcontra => ?_⟩
    simp at hcontra

/-! ### C2 — anchor priority in the end-of-document detector -/

theorem mem_insertLe {α : Type _} (le : α → α → Bool) (x a : α) :
    ∀ l : List α, (a ∈ insertLe le x l ↔ a = x ∨ a ∈ l) := by
  intro l
  induction l with
  | nil => simp [insertLe]
  | cons y ys ih =>
    simp only [insertLe]
    by_cases h : le y x
    · rw [if_pos h]
      simp only [List.mem_cons, ih]
      tauto
    · rw [if_neg h]
      simp only [List.mem_cons]

theorem mem_sortByLe {α : Type _} (le : α → α → Bool) (l : List α) (a : α) :
    a ∈ sortByLe le l ↔ a ∈ l := by
  have key : ∀ (l acc : List α),
      a ∈ l.foldl (fun acc x => insertLe le x acc) acc ↔ a ∈ l ∨ a ∈ acc := by
    intro l
    induction l with
    | nil =>
      intro acc
      simp
    | cons x xs ih =>
      intro acc
      simp only [List.foldl_cons, ih, mem_insertLe, List.mem_cons]
      tauto
  simpa [sortByLe] using key l []

theorem mem_sortLines (l : List Line) (a : Line) : a ∈ sortLines l ↔ a ∈ l :=
  mem_sortByLe _ _ _

/-- A qualifying standalone annex heading, as the claim words it: below
the last article head when the page has one; anywhere when it has none but
the document has seen an article before. -/
def annex_qualifies (tailS leftS rightS wuS : List Line) (seen : Bool)
    (lh? : Option ℚ) : Prop :=
  match lh? with
  | some lh =>
    ∃ ln ∈ tailS ++ wuS ++ leftS ++ rightS,
      ymid ln < lh ∧ is_annex_heading_line ln.txt = true
  | none =>
    seen = true ∧
      ∃ ln ∈ wuS ++ leftS ++ rightS ++ tailS, is_annex_heading_line ln.txt = true

/-- A qualifying signature/date/seal anchor: a signature-like tail line
above the last article head (when one exists). -/
def signature_qualifies (tailS : List Line) (lh? : Option ℚ) : Prop :=
  ∃ ln ∈ tailS, (∀ lh, lh? = some lh → ymid ln < lh) ∧ is_signatureish ln.txt = true

/-- The caps scan ignores lines at or below the last head: scanning a list
equals scanning its above-head filter. -/
theorem capsScanGo_eq_filter (lh : ℚ) :
    ∀ (l : List Line) (first : Option Line),
      capsScanGo lh first l =
        capsScanGo lh first (l.filter fun ln => decide (ymid ln < lh)) := by
  intro l
  induction l with
  | nil =>
    intro first
    rfl
  | cons ln rest ih =>
    intro first
    by_cases hy : lh ≤ ymid ln
    · have hf : decide (ymid ln < lh) = false := decide_eq_false (not_lt.mpr hy)
      have hskip : decide (lh ≤ ymid ln) = true := decide_eq_true hy
      simp only [List.filter_cons, hf, Bool.false_eq_true, if_false, capsScanGo, hskip,
        if_true]
      exact ih first
    · have hf : decide (ymid ln < lh) = true := decide_eq_true (lt_of_not_ge hy)
      have hskip : decide (lh ≤ ymid ln) = false := decide_eq_false hy
      simp only [List.filter_cons, hf, if_true, capsScanGo, hskip, Bool.false_eq_true,
        if_false]
      by_cases hu : upper_greek_name_match ln.txt
      · rw [if_pos hu, if_pos hu]
        cases first with
        | some f => rfl
        | none => exact ih (some ln)
      · rw [if_neg hu, if_neg hu]
        exact ih none

/-- When the caps scan fires on a list of lines all above the head, it was
fed two consecutive ALL-CAPS lines (or the pending first line plus the
head of the list), and the cut is the first line's midpoint. -/
theorem capsScanGo_pair (lh : ℚ) :
    ∀ (l : List Line) (first : Option Line) (y : ℚ),
      capsScanGo lh first l = some y →
      (∀ ln ∈ l, ymid ln < lh) →
      (∃ f, first = some f ∧ y = ymid f ∧
        ∃ l2 post, l = l2 :: post ∧ upper_greek_name_match l2.txt = true) ∨
      (∃ pre l1 l2 post, l = pre ++ l1 :: l2 :: post ∧
        upper_greek_name_match l1.txt = true ∧ upper_greek_name_match l2.txt = true ∧
        y = ymid l1) := by
  intro l
  induction l with
  | nil =>
    intro first y h _
    simp [capsScanGo] at h
  | cons ln rest ih =>
    intro first y h hlt
    have hskip : decide (lh ≤ ymid ln) = false :=
      decide_eq_false (not_le.mpr (hlt ln (by simp)))
    simp only [capsScanGo, hskip, Bool.false_eq_true, if_false] at h
    by_cases hu : upper_greek_name_match ln.txt
    · rw [if_pos hu] at h
      cases first with
      | some f =>
        simp only [Option.some_inj] at h
        exact Or.inl ⟨f, rfl, h.symm, ln, rest, rfl, hu⟩
      | none =>
        have hrec := ih (some ln) y h (fun x hx => hlt x (List.mem_cons_of_mem _ hx))
        rcases hrec with ⟨f, hf, hy, l2, post, hrest, hul2⟩ |
          ⟨pre, l1, l2, post, hrest, h1, h2, hy⟩
        · have hfe : f = ln := by
            injection hf with hf
            exact hf.symm
          subst hfe
          exact Or.inr ⟨[], f, l2, post, by simp [hrest], hu, hul2, hy⟩
        · exact Or.inr ⟨ln :: pre, l1, l2, post, by simp [hrest], h1, h2, hy⟩
    · rw [if_neg hu] at h
      have hrec := ih none y h (fun x hx => hlt x (List.mem_cons_of_mem _ hx))
      rcases hrec with ⟨f, hf, _⟩ | ⟨pre, l1, l2, post, hrest, h1, h2, hy⟩
      · exact absurd hf (by simp)
      · exact Or.inr ⟨ln :: pre, l1, l2, post, by simp [hrest], h1, h2, hy⟩

/-- Every cut the annex stage produces carries the annex reason. -/
theorem annex_phase_reason :
    ∀ (tailS leftS rightS wuS : List Line) (seen : Bool) (lh? : Option ℚ) (y : ℚ)
      (r : CutReason),
      annex_phase tailS leftS rightS wuS seen lh? = some (y, r) →
      r = CutReason.annex := by
  intro tailS leftS rightS wuS seen lh? y r h
  unfold annex_phase at h
  repeat' split at h
  all_goals simp_all

/-- The annex stage fires exactly when a qualifying annex heading exists. -/
theorem annex_phase_isSome :
    ∀ (tailS leftS rightS wuS : List Line) (seen : Bool) (lh? : Option ℚ),
      (annex_phase tailS leftS rightS wuS seen lh?).isSome = true ↔
        annex_qualifies tailS leftS rightS wuS seen lh? := by
  intro tailS leftS rightS wuS seen lh?
  cases lh? with
  | some lh =>
    simp only [annex_phase, annex_qualifies]
    cases h1 : tailS.find? (fun ln =>
        decide (ymid ln < lh) && is_annex_heading_line ln.txt) with
    | some ln =>
      simp only [Option.isSome_some, true_iff]
      have hp := List.find?_some h1
      simp only [Bool.and_eq_true, decide_eq_true_eq] at hp
      have hm := List.mem_of_find?_eq_some h1
      refine ⟨ln, ?_, hp.1, hp.2⟩
      simp only [List.mem_append]
      tauto
    | none =>
      cases h2 : (sortLines (wuS ++ leftS ++ rightS)).find? (fun ln =>
          decide (ymid ln < lh) && is_annex_heading_line ln.txt) with
      | some ln =>
        simp only [Option.isSome_some, true_iff]
        have hp := List.find?_some h2
        simp only [Bool.and_eq_true, decide_eq_true_eq] at hp
        have hm0 := List.mem_of_find?_eq_some h2
        have hm : ln ∈ wuS ++ leftS ++ rightS := (mem_sortLines _ _).1 hm0
        simp only [List.mem_append] at hm
        refine ⟨ln, ?_, hp.1, hp.2⟩
        simp only [List.mem_append]
        tauto
      | none =>
        simp only [Option.isSome_none, Bool.false_eq_true, false_iff]
        rintro ⟨ln, hmem, hlt, hannex⟩
        simp only [List.mem_append] at hmem
        have hcase : ln ∈ tailS ∨ ln ∈ wuS ++ leftS ++ rightS := by
          simp only [List.mem_append]
          tauto
        rcases hcase with hm | hm
        · have := List.find?_eq_none.mp h1 ln hm
          simp [hlt, hannex] at this
        · have := List.find?_eq_none.mp h2 ln ((mem_sortLines _ _).2 hm)
          simp [hlt, hannex] at this
  | none =>
    simp only [annex_phase, annex_qualifies]
    by_cases hseen : seen = true
    · rw [if_pos hseen]
      cases h3 : (sortLines (wuS ++ leftS ++ rightS ++ tailS)).find? (fun ln =>
          is_annex_heading_line ln.txt) with
      | some ln =>
        simp only [Option.isSome_some, true_iff]
        have hp := List.find?_some h3
        have hm0 := List.mem_of_find?_eq_some h3
        have hm : ln ∈ wuS ++ leftS ++ rightS ++ tailS := (mem_sortLines _ _).1 hm0
        exact ⟨hseen, ln, hm, hp⟩
      | none =>
        simp only [Option.isSome_none, Bool.false_eq_true, false_iff]
        rintro ⟨_, ln, hmem, hannex⟩
        have := List.find?_eq_none.mp h3 ln ((mem_sortLines _ _).2 hmem)
        simp [hannex] at this
    · rw [if_neg hseen]
      simp only [Option.isSome_none, Bool.false_eq_true, false_iff]
      rintro ⟨hs, -⟩
      exact hseen hs

/-- Every cut the signature stage produces carries the signature reason. -/
theorem signature_phase_reason :
    ∀ (tailS : List Line) (lh? : Option ℚ) (y : ℚ) (r : CutReason),
      signature_phase tailS lh? = some (y, r) → r = CutReason.signature := by
  intro tailS lh? y r h
  unfold signature_phase at h
  repeat' split at h
  all_goals simp_all

/-- The signature stage fires exactly when a qualifying signature anchor
exists. -/
theorem signature_phase_isSome :
    ∀ (tailS : List Line) (lh? : Option ℚ),
      (signature_phase tailS lh?).isSome = true ↔ signature_qualifies tailS lh? := by
  intro tailS lh?
  simp only [signature_phase, signature_qualifies]
  cases h : tailS.find? (fun ln =>
      (match lh? with
       | some lh => decide (ymid ln < lh)
       | none => true) && is_signatureish ln.txt) with
  | some ln =>
    simp only [Option.isSome_some, true_iff]
    have hp := List.find?_some h
    simp only [Bool.and_eq_true] at hp
    refine ⟨ln, List.mem_of_find?_eq_some h, ?_, hp.2⟩
    intro lh hlh
    have hcond := hp.1
    rw [hlh] at hcond
    simpa using hcond
  | none =>
    simp only [Option.isSome_none, Bool.false_eq_true, false_iff]
    rintro ⟨ln, hmem, hord, hsig⟩
    have hthis := List.find?_eq_none.mp h ln hmem
    cases hlh : lh? with
    | some lh =>
      rw [hlh] at hthis
      simp [hsig, hord lh hlh] at hthis
    | none =>
      rw [hlh] at hthis
      simp [hsig] at hthis

/-- C2: on the two-column path the anchors are evaluated in strict
priority. The cut reason is proclamation exactly when some tail line
matches the proclamation pattern; it is annex only when no proclamation
matched and a qualifying standalone annex heading exists; signature only
when neither higher-priority anchor matched; caps — two consecutive
ALL-CAPS name lines above the last article head, cutting at the first —
only when none of the other three matched; and the two-column emission
marks the page terminal exactly when some cut reason was chosen. -/
theorem C2_anchor_priority :
    ∀ (tailS leftS rightS wuS : List Line) (seen : Bool),
    ((∃ ln ∈ tailS, proclaim_match ln.txt = true) ↔
      (∃ y, eod_cut tailS leftS rightS wuS seen = some (y, CutReason.proclaim))) ∧
    (∀ y, eod_cut tailS leftS rightS wuS seen = some (y, CutReason.annex) →
      (∀ ln ∈ tailS, proclaim_match ln.txt = false) ∧
      annex_qualifies tailS leftS rightS wuS seen
        (last_head_y (tailS ++ leftS ++ rightS ++ wuS))) ∧
    (∀ y, eod_cut tailS leftS rightS wuS seen = some (y, CutReason.signature) →
      (∀ ln ∈ tailS, proclaim_match ln.txt = false) ∧
      ¬ annex_qualifies tailS leftS rightS wuS seen
        (last_head_y (tailS ++ leftS ++ rightS ++ wuS)) ∧
      signature_qualifies tailS (last_head_y (tailS ++ leftS ++ rightS ++ wuS))) ∧
    (∀ y, eod_cut tailS leftS rightS wuS seen = some (y, CutReason.caps) →
      (∀ ln ∈ tailS, proclaim_match ln.txt = false) ∧
      ¬ annex_qualifies tailS leftS rightS wuS seen
        (last_head_y (tailS ++ leftS ++ rightS ++ wuS)) ∧
      ¬ signature_qualifies tailS (last_head_y (tailS ++ leftS ++ rightS ++ wuS)) ∧
      ∃ lh, last_head_y (tailS ++ leftS ++ rightS ++ wuS) = some lh ∧
        ∃ pre l1 l2 post,
          tailS.filter (fun ln => decide (ymid ln < lh)) = pre ++ l1 :: l2 :: post ∧
          upper_greek_name_match l1.txt = true ∧
          upper_greek_name_match l2.txt = true ∧ y = ymid l1) ∧
    (∀ (sx w : ℚ) (sm2 : SmootherStore) (seen2 : Bool) (b : Buckets),
      (twocol_emit sx w sm2 seen2 b).1.terminal_reached =
        (eod_cut (sortLines (sortLines b.tail_single ++ sortLines b.wide_lower))
          (sortLines b.left) (sortLines b.right) (sortLines b.wide_upper)
          seen2).isSome) := by
  intro tailS leftS rightS wuS seen
  by_cases hp : ∃ ln ∈ tailS, proclaim_match ln.txt = true
  · have hfind : (tailS.find? fun ln => proclaim_match ln.txt).isSome := by
      rw [List.find?_isSome]
      exact hp
    obtain ⟨ln, hfeq⟩ := Option.isSome_iff_exists.mp hfind
    have heod : eod_cut tailS leftS rightS wuS seen = some (ymid ln, CutReason.proclaim) := by
      simp only [eod_cut, hfeq]
    refine ⟨⟨fun _ => ⟨ymid ln, heod⟩, fun _ => hp⟩, ?_, ?_, ?_,
      fun sx w sm2 seen2 b => rfl⟩
    · intro y hy
      rw [heod] at hy
      simp at hy
    · intro y hy
      rw [heod] at hy
      simp at hy
    · intro y hy
      rw [heod] at hy
      simp at hy
  · have hnop : ∀ ln ∈ tailS, proclaim_match ln.txt = false := by
      intro ln hln
      by_contra hc
      exact hp ⟨ln, hln, by simpa using hc⟩
    have hfind : tailS.find? (fun ln => proclaim_match ln.txt) = none := by
      rw [List.find?_eq_none]
      intro x hx
      simp [hnop x hx]
    have heod : eod_cut tailS leftS rightS wuS seen =
        (match annex_phase tailS leftS rightS wuS seen
            (last_head_y (tailS ++ leftS ++ rightS ++ wuS)) with
         | some c => some c
         | none =>
           match signature_phase tailS (last_head_y (tailS ++ leftS ++ rightS ++ wuS)) with
           | some c => some c
           | none => caps_phase tailS (last_head_y (tailS ++ leftS ++ rightS ++ wuS))) := by
      simp only [eod_cut, hfind]
    have hnoproc : ¬ ∃ y, eod_cut tailS leftS rightS wuS seen =
        some (y, CutReason.proclaim) := by
      rintro ⟨y, hy⟩
      rw [heod] at hy
      cases ha : annex_phase tailS leftS rightS wuS seen
          (last_head_y (tailS ++ leftS ++ rightS ++ wuS)) with
      | some c =>
        rw [ha] at hy
        obtain ⟨y0, r0⟩ := c
        have := annex_phase_reason _ _ _ _ _ _ _ _ ha
        subst this
        simp at hy
      | none =>
        rw [ha] at hy
        cases hs : signature_phase tailS (last_head_y (tailS ++ leftS ++ rightS ++ wuS)) with
        | some c =>
          rw [hs] at hy
          obtain ⟨y0, r0⟩ := c
          have := signature_phase_reason _ _ _ _ hs
          subst this
          simp at hy
        | none =>
          rw [hs] at hy
          unfold caps_phase at hy
          repeat' split at hy
          all_goals simp_all
    refine ⟨⟨fun hex => (hp hex).elim, fun hex => (hnoproc hex).elim⟩, ?_, ?_, ?_,
      fun sx w sm2 seen2 b => rfl⟩
    · -- annex only-if
      intro y hy
      refine ⟨hnop, ?_⟩
      rw [heod] at hy
      cases ha : annex_phase tailS leftS rightS wuS seen
          (last_head_y (tailS ++ leftS ++ rightS ++ wuS)) with
      | some c =>
        exact (annex_phase_isSome _ _ _ _ _ _).mp (by rw [ha]; rfl)
      | none =>
        rw [ha] at hy
        cases hs : signature_phase tailS (last_head_y (tailS ++ leftS ++ rightS ++ wuS)) with
        | some c =>
          rw [hs] at hy
          obtain ⟨y0, r0⟩ := c
          have := signature_phase_reason _ _ _ _ hs
          subst this
          simp at hy
        | none =>
          rw [hs] at hy
          unfold caps_phase at hy
          repeat' split at hy
          all_goals simp_all
    · -- signature only-if
      intro y hy
      rw [heod] at hy
      cases ha : annex_phase tailS leftS rightS wuS seen
          (last_head_y (tailS ++ leftS ++ rightS ++ wuS)) with
      | some c =>
        rw [ha] at hy
        obtain ⟨y0, r0⟩ := c
        have := annex_phase_reason _ _ _ _ _ _ _ _ ha
        subst this
        simp at hy
      | none =>
        rw [ha] at hy
        have hnq : ¬ annex_qualifies tailS leftS rightS wuS seen
            (last_head_y (tailS ++ leftS ++ rightS ++ wuS)) := by
          intro hq
          have := (annex_phase_isSome _ _ _ _ _ _).mpr hq
          rw [ha] at this
          simp at this
        cases hs : signature_phase tailS (last_head_y (tailS ++ leftS ++ rightS ++ wuS)) with
        | some c =>
          exact ⟨hnop, hnq, (signature_phase_isSome _ _).mp (by rw [hs]; rfl)⟩
        | none =>
          rw [hs] at hy
          unfold caps_phase at hy
          repeat' split at hy
          all_goals simp_all
    · -- caps only-if
      intro y hy
      rw [heod] at hy
      cases ha : annex_phase tailS leftS rightS wuS seen
          (last_head_y (tailS ++ leftS ++ rightS ++ wuS)) with
      | some c =>
        rw [ha] at hy
        obtain ⟨y0, r0⟩ := c
        have := annex_phase_reason _ _ _ _ _ _ _ _ ha
        subst this
        simp at hy
      | none =>
        rw [ha] at hy
        have hnq : ¬ annex_qualifies tailS leftS rightS wuS seen
            (last_head_y (tailS ++ leftS ++ rightS ++ wuS)) := by
          intro hq
          have := (annex_phase_isSome _ _ _ _ _ _).mpr hq
          rw [ha] at this
          simp at this
        cases hs : signature_phase tailS (last_head_y (tailS ++ leftS ++ rightS ++ wuS)) with
        | some c =>
          rw [hs] at hy
          obtain ⟨y0, r0⟩ := c
          have := signature_phase_reason _ _ _ _ hs
          subst this
          simp at hy
        | none =>
          rw [hs] at hy
          have hnsq : ¬ signature_qualifies tailS
              (last_head_y (tailS ++ leftS ++ rightS ++ wuS)) := by
            intro hq
            have := (signature_phase_isSome _ _).mpr hq
            rw [hs] at this
            simp at this
          refine ⟨hnop, hnq, hnsq, ?_⟩
          unfold caps_phase at hy
          cases hlh : last_head_y (tailS ++ leftS ++ rightS ++ wuS) with
          | none =>
            simp only [hlh] at hy
            simp at hy
          | some lh =>
            simp only [hlh] at hy
            cases hscan : capsScanGo lh none tailS with
            | none =>
              simp only [hscan] at hy
              simp at hy
            | some y0 =>
              simp only [hscan] at hy
              simp only [Option.some_inj, Prod.mk.injEq] at hy
              obtain ⟨hyy, -⟩ := hy
              subst hyy
              rw [capsScanGo_eq_filter] at hscan
              have hpair := capsScanGo_pair lh
                (tailS.filter fun ln => decide (ymid ln < lh)) none y0 hscan
                (fun x hx => by
                  have := (List.mem_filter.mp hx).2
                  simpa using this)
              rcases hpair with ⟨f, hf, -⟩ | ⟨pre, l1, l2, post, hrest, h1, h2, hyv⟩
              · exact absurd hf (by simp)
              · exact ⟨lh, rfl, pre, l1, l2, post, hrest, h1, h2, hyv⟩

/-! ### C1 — termination monotonicity of the document loop -/

/-- The stop index is never before the starting index. -/
theorem stop_index_ge (pages : List PageInput) :
    ∀ (st : ExtractorState) (i k : Nat), stop_index st i pages = some k → i ≤ k := by
  induction pages with
  | nil =>
    intro st i k h
    simp [stop_index] at h
  | cons p rest ih =>
    intro st i k h
    simp only [stop_index] at h
    by_cases hempty : p.lines.isEmpty
    · rw [if_pos hempty] at h
      have := ih _ _ _ h
      omega
    · rw [if_neg hempty] at h
      by_cases ht :
          (process_page st ⟨i, p.width, p.height, p.rotation⟩ p.lines).1.terminal_reached
      · rw [if_pos ht] at h
        injection h with h
        omega
      · rw [if_neg ht] at h
        have := ih _ _ _ h
        omega

/-- Once the stop index is known, the page loop reads nothing beyond it:
its output over the whole page list equals its output over the prefix
ending at the stop page. -/
theorem run_pages_stop (pages : List PageInput) :
    ∀ (st : ExtractorState) (i k : Nat), stop_index st i pages = some k →
      run_pages st i pages = run_pages st i (pages.take (k + 1 - i)) := by
  induction pages with
  | nil =>
    intro st i k h
    simp [stop_index] at h
  | cons p rest ih =>
    intro st i k h
    have hik : i ≤ k := stop_index_ge _ _ _ _ h
    have htake : (p :: rest).take (k + 1 - i) = p :: rest.take (k + 1 - (i + 1)) := by
      have h1 : k + 1 - i = (k + 1 - (i + 1)) + 1 := by omega
      rw [h1, List.take_succ_cons]
    simp only [stop_index] at h
    by_cases hempty : p.lines.isEmpty
    · rw [if_pos hempty] at h
      rw [htake]
      simp only [run_pages, if_pos hempty]
      rw [ih _ _ _ h]
    · rw [if_neg hempty] at h
      by_cases ht :
          (process_page st ⟨i, p.width, p.height, p.rotation⟩ p.lines).1.terminal_reached
      · rw [if_pos ht] at h
        injection h with h
        subst h
        rw [htake]
        simp only [run_pages, if_neg hempty, if_pos ht]
      · rw [if_neg ht] at h
        rw [htake]
        simp only [run_pages, if_neg hempty, if_neg ht]
        rw [ih _ _ _ h]

/-- C1: when processing sets `terminal_reached` at page index k, the whole
document text equals the text extracted from the first k+1 pages alone —
the loop stops right after page k and no text from any later page reaches
the output. -/
theorem C1_terminal_truncates :
    ∀ (pages : List PageInput) (k : Nat),
    stop_index initState 0 pages = some k →
    extract_text_whole pages = extract_text_whole (pages.take (k + 1)) := by
  intro pages k h
  unfold extract_text_whole
  rw [run_pages_stop pages initState 0 k h]
  norm_num

/-- A two-page document whose first page carries a proclamation anchor. -/
def c1_doc : List PageInput :=
  [⟨1000, 1000, 0, proclaim_page⟩, ⟨480, 480, 0, balanced_page⟩]

/-- C1 witness: the proclamation page terminates the two-page document at
index 0. -/
theorem C1_terminal_truncates_witness :
    extract_text_whole c1_doc = extract_text_whole (c1_doc.take 1) :=
  C1_terminal_truncates c1_doc 0 (by decide)

/-- C8 witness: a fresh one-line page. -/
theorem C8_fresh_single_column_witness :
    ∃ kept : List Line,
      kept.Sublist (sortLines (filter_headers_footers proclaim_page 1000 1000)) ∧
      (process_page initState ⟨0, 1000, 1000, 0⟩ proclaim_page).2 =
        lines_to_text_s kept ∧
      (onecol_annex_cut (sortLines (filter_headers_footers proclaim_page 1000 1000))
          (initState.seen_any_article ||
            (filter_headers_footers proclaim_page 1000 1000).any fun ln =>
              article_head_match ln.txt) = none →
        kept = sortLines (filter_headers_footers proclaim_page 1000 1000)) :=
  C8_fresh_single_column initState ⟨0, 1000, 1000, 0⟩ proclaim_page rfl (by decide)

end Fek
